import Mathlib

/-!
Shallow embedding of the terrain mesh + hydrology core of
`TerrainGenerator.py` (classes `Vertex`, `Ridge`, `Patch`, `World`), with
theorems settling the frozen claims about it.

Modelling conventions:
* Python float arithmetic is modelled over `ℚ`.  The two transcendental
  library functions the code uses, `np.sqrt` and `np.exp`, have no rational
  counterpart; they are passed to the embedded operations as explicit
  function arguments (`sqrtFn`, `expFn`) and the theorems that need facts
  about them (non-negativity, positivity) take those facts as hypotheses.
* Python objects are identified by their `name` field; the mutable object
  graph is a `World` record containing lists of vertices, ridges and
  patches, and mutation is explicit state passing.
* A Python `dict` is an association list where the most recent binding is
  consed at the front, so `List.lookup` (first match) sees the latest
  binding, and a Python `set` is a list queried only through membership.
* Operations that can raise (`ZeroDivisionError`, or an undefined
  float division producing `NaN`/`inf`) are modelled with `Option`:
  `none` stands for the failing / undefined outcome.
-/

namespace TerrainGen

/-- Embeds class `Vertex` (TerrainGenerator.py).  `neighbors` holds the
names of adjacent vertices, `ridges` maps a neighbor name to the name of
the connecting ridge, `patches` holds names of incident patches. -/
structure Vertex where
  name : ℕ
  coords : ℚ × ℚ
  height : ℚ
  flux : ℚ
  neighbors : List ℕ
  ridges : List (ℕ × ℕ)
  patches : List ℕ
deriving DecidableEq

/-- Embeds class `Ridge`: two endpoint vertex names, a flux, and the
names of incident patches. -/
structure Ridge where
  name : ℕ
  end_1 : ℕ
  end_2 : ℕ
  flux : ℚ
  patches : List ℕ
deriving DecidableEq

/-- Embeds class `Patch`: bounding vertex names (with multiplicity, as in
the Python list), the ridge-name-to-neighbor-patch-name map, the centroid
computed at construction, and `hCache` for the memoizing `Patch._h`. -/
structure Patch where
  name : ℕ
  vertices : List ℕ
  neighbors : List (ℕ × ℕ)
  centroid : ℚ × ℚ
  hCache : Option ℚ
deriving DecidableEq

/-- Embeds class `World`: the mesh plus `sea_level`, the bounding box and
the `_land_patches` cache (a list of patch names; empty = "uncomputed"). -/
structure World where
  vertices : List Vertex
  ridges : List Ridge
  patches : List Patch
  sea_level : ℚ
  x_lim : ℚ × ℚ
  y_lim : ℚ × ℚ
  landCache : List ℕ
deriving DecidableEq

/-- Resolve a vertex name in a vertex list (Python attribute access through
an object reference; names are unique in well-formed worlds). -/
def getVertexL (vs : List Vertex) (n : ℕ) : Option Vertex :=
  vs.find? (fun v => v.name = n)

/-- Resolve a vertex name in a world. -/
def getVertex (w : World) (n : ℕ) : Option Vertex :=
  getVertexL w.vertices n

/-- Resolve a patch name in a world. -/
def getPatch (w : World) (n : ℕ) : Option Patch :=
  w.patches.find? (fun p => p.name = n)

/-- Mutate the vertex with the given name in place. -/
def updVertex (w : World) (n : ℕ) (f : Vertex → Vertex) : World :=
  { w with vertices := w.vertices.map (fun v => if v.name = n then f v else v) }

/-- Embeds `World._check_coord`: strictly inside the bounding box. -/
def check_coord (w : World) (c : ℚ × ℚ) : Prop :=
  w.x_lim.1 < c.1 ∧ c.1 < w.x_lim.2 ∧ w.y_lim.1 < c.2 ∧ c.2 < w.y_lim.2

instance (w : World) (c : ℚ × ℚ) : Decidable (check_coord w c) := by
  unfold check_coord; infer_instance

/-- Minimum of a rational list (`min()` in Python raises on an empty list,
modelled by `none`). -/
def listMin : List ℚ → Option ℚ
  | [] => none
  | x :: xs => some (xs.foldl min x)

/-- Maximum of a rational list. -/
def listMax : List ℚ → Option ℚ
  | [] => none
  | x :: xs => some (xs.foldl max x)

/-- Embeds helper `find_centroid`: coordinate-wise arithmetic mean.
(`sum/len`; the callers never pass an empty list.) -/
def find_centroid (pts : List (ℚ × ℚ)) : ℚ × ℚ :=
  ((pts.map Prod.fst).sum / pts.length, (pts.map Prod.snd).sum / pts.length)

/-- Embeds `World.set_heights`. -/
def set_heights (w : World) (h : ℚ) : World :=
  { w with vertices := w.vertices.map (fun v => { v with height := h }) }

/-- Embeds `World.normalize_heights`.  The Python body is
`v.height = (v.height - min_h) / (max_h - min_h)` with no guard: with an
empty vertex list `min()` raises, and with `max_h == min_h` the division
is a `ZeroDivisionError` (float heights) or a silent `NaN` (numpy
heights); both failure modes are modelled as `none`. -/
def normalize_heights (w : World) : Option World :=
  match listMin (w.vertices.map (fun v => v.height)),
        listMax (w.vertices.map (fun v => v.height)) with
  | some mn, some mx =>
      if mx = mn then none
      else
        let vs := w.vertices.map (fun v => { v with height := (v.height - mn) / (mx - mn) })
        some { w with vertices := vs }
  | _, _ => none

/-! ### Hydrology: flow accumulation (`make_rivers`, `reset_rivers`) -/
/-- Embeds `World.reset_rivers`: every vertex flux becomes `1/len(vertices)`,
every ridge flux becomes `0`. -/
def reset_rivers (w : World) : World :=
  { w with
    vertices := w.vertices.map (fun v => { v with flux := 1 / (w.vertices.length : ℚ) }),
    ridges := w.ridges.map (fun r => { r with flux := 0 }) }

/-- `min(v.neighbors, key=lambda x: x.height)`: scan the neighbor set and keep
the first vertex of minimal height (`none` when the neighbor set is empty, in
which case Python's `min` raises `ValueError`). -/
def lowestNeighbor (w : World) (v : Vertex) : Option Vertex :=
  match v.neighbors.filterMap (getVertex w) with
  | [] => none
  | x :: xs => some (xs.foldl (fun acc y => if y.height < acc.height then y else acc) x)

/-- Add `d` to the flux of the ridge named `rn`. -/
def bumpRidgeFlux (w : World) (rn : ℕ) (d : ℚ) : World :=
  { w with ridges := w.ridges.map (fun r => if r.name = rn then { r with flux := r.flux + d } else r) }

/-- One iteration of the `make_rivers` loop for the vertex named `n`, acting on
the current state `w`:
skip out-of-bounds vertices; otherwise find the minimum-height neighbor
`lowest` and, when `lowest.height < v.height`, add `v.flux` to `lowest.flux`
and to the flux of the ridge `v.ridges[lowest.name]`. -/
def riverStep (w : World) (n : ℕ) : World :=
  match getVertex w n with
  | none => w
  | some v =>
    if check_coord w v.coords then
      match lowestNeighbor w v with
      | none => w
      | some lo =>
        if lo.height < v.height then
          let w1 := updVertex w lo.name (fun u => { u with flux := u.flux + v.flux })
          match v.ridges.lookup lo.name with
          | some rn => bumpRidgeFlux w1 rn v.flux
          | none => w1
        else w
    else w

/-- The comparison `sorted(vertices, key=lambda x: x.height, reverse=True)`
sorts by: earlier element has the not-smaller height. -/
def heightGE (a b : Vertex) : Prop := b.height ≤ a.height

instance : DecidableRel heightGE := fun a b => inferInstanceAs (Decidable (b.height ≤ a.height))

instance : IsTotal Vertex heightGE := ⟨fun a b => le_total b.height a.height⟩

instance : IsTrans Vertex heightGE := ⟨fun _ _ _ h h' => le_trans h' h⟩

/-- Embeds `World.make_rivers`: reset, then process the vertices in
height-descending order (a stable sort, as Python's `sorted`). -/
def make_rivers (w : World) : World :=
  let w0 := reset_rivers w
  let order := (List.insertionSort heightGE w0.vertices).map (fun v => v.name)
  order.foldl riverStep w0

/-! ### Hydrology: erosion (`erode_heights`) -/
/-- Squared Euclidean distance between two coordinate pairs. -/
def dist2 (a b : ℚ × ℚ) : ℚ := (a.1 - b.1) ^ 2 + (a.2 - b.2) ^ 2

/-- Embeds the property `Ridge.slope` = `abs(end_1.height - end_2.height) /
self.length`, where `length` is the Euclidean norm of the endpoint
difference (`sqrtFn` models `np.sqrt`).  There is no guard in the source:
with coincident endpoints the length is `0` and the float division yields
`NaN`/`inf`, modelled as `none`. -/
def ridgeSlope (sqrtFn : ℚ → ℚ) (a b : Vertex) : Option ℚ :=
  if dist2 a.coords b.coords = 0 then none
  else some (|a.height - b.height| / sqrtFn (dist2 a.coords b.coords))

/-- One iteration of the `erode_heights` loop for ridge `r` on state `w`:
ridges with zero flux are skipped; otherwise
`total = min(1000*sqrt(flux)*slope + slope**2, max_total)` and the
lower-height endpoint (`end_1` on ties, as Python's `min` keeps the first)
loses `0.1 * total / 500`.  An unresolvable endpoint or a `NaN` slope
poisons the computation (`none`). -/
def erodeStep (sqrtFn : ℚ → ℚ) (max_total : ℚ) (w : World) (r : Ridge) : Option World :=
  if r.flux = 0 then some w
  else
    match getVertex w r.end_1, getVertex w r.end_2 with
    | some a, some b =>
      match ridgeSlope sqrtFn a b with
      | none => none
      | some s =>
        let river := sqrtFn r.flux * s
        let creep := s ^ 2
        let total := min (1000 * river + creep) max_total
        let lowName := if a.height ≤ b.height then a.name else b.name
        some (updVertex w lowName (fun u => { u with height := u.height - 1/10 * total / 500 }))
    | _, _ => none

/-- Fold `erodeStep` over a ridge list (the loop `for ridge in
self.ridges.values()`; ridge data is not mutated by the pass, so the
iteration snapshot is the original list). -/
def erodePass (sqrtFn : ℚ → ℚ) (max_total : ℚ) : World → List Ridge → Option World
  | s, [] => some s
  | s, r :: rs => (erodeStep sqrtFn max_total s r).bind (fun s1 => erodePass sqrtFn max_total s1 rs)

set_option linter.unusedVariables false in
/-- Embeds `World.erode_heights`.  The `drop_factor` parameter is kept
exactly as in the source signature (where it is never read). -/
def erode_heights (sqrtFn : ℚ → ℚ) (w : World) (max_total : ℚ) (drop_factor : ℚ) : Option World :=
  erodePass sqrtFn max_total w w.ridges

/-! ### Sea level and land classification -/
/-- Models `numpy.percentile` with its default linear interpolation, for a
nonempty data list and `0 ≤ q ≤ 100`: sort ascending, let
`rank = q*(n-1)/100`, and interpolate between the neighboring order
statistics.  (numpy raises outside `[0,100]` and on empty data; the
theorems below only invoke this model on valid inputs.) -/
def percentile (data : List ℚ) (q : ℚ) : ℚ :=
  let s := List.insertionSort (fun a b : ℚ => a ≤ b) data
  let rank : ℚ := q * ((s.length : ℚ) - 1) / 100
  let i : ℕ := (⌊rank⌋).toNat
  let lo := s.getD i 0
  let hi := s.getD (i + 1) lo
  lo + (rank - (⌊rank⌋ : ℚ)) * (hi - lo)

/-- Embeds `World.set_sea_level`: a value `< 1` is the sea level itself;
otherwise the value is a percentile of the current vertex heights. -/
def set_sea_level (w : World) (sea_level : ℚ) : World :=
  if sea_level < 1 then { w with sea_level := sea_level }
  else { w with sea_level := percentile (w.vertices.map (fun v => v.height)) sea_level }

/-- The value of the property `Patch.height`: the memoized `_h` if it has
been computed, otherwise the minimum height among the bounding vertices
(`min()` on an empty list raises in Python; patches materialized by
`_make_patches` always have at least one vertex, and the junk value `0`
is never reached in the theorems below). -/
def patchHeightVal (w : World) (p : Patch) : ℚ :=
  match p.hCache with
  | some h => h
  | none =>
    match listMin ((p.vertices.filterMap (getVertex w)).map (fun v => v.height)) with
    | some m => m
    | none => 0

/-- Reading `p.height` memoizes it; a pass that reads every patch height
(as the `land_patches` list comprehension does) leaves every `_h` set. -/
def freezeHeights (w : World) : World :=
  { w with patches := w.patches.map (fun p => { p with hCache := some (patchHeightVal w p) }) }

/-- Embeds the property `World.land_patches`: if the cache `_land_patches`
is empty, recompute `[p for p in patches if p.height > sea_level]` (which
memoizes every patch height) and store it; otherwise return the cache.
Returns the resulting patch-name list together with the updated world. -/
def land_patches (w : World) : List ℕ × World :=
  if w.landCache = [] then
    let w1 := freezeHeights w
    let r := (w1.patches.filter (fun p => w.sea_level < patchHeightVal w1 p)).map (fun p => p.name)
    (r, { w1 with landCache := r })
  else (w.landCache, w)

/-! ### Navigation graph (`patch_network`) -/
/-- Embeds the graph construction in `World.patch_network` (the body run on
first access): for each land patch, for each `(ridge, neighbor)` item,
skip neighbors with `p.height < sea_level`, otherwise add the directed
edge `(patch.name, p.name)` weighted by the centroid distance times
`exp(neighbor height - patch height)`.  `sqrtFn` models `np.sqrt` (inside
`np.linalg.norm`) and `expFn` models `np.exp`. -/
def networkEdges (sqrtFn expFn : ℚ → ℚ) (w : World) : List (ℕ × ℕ × ℚ) :=
  let res := land_patches w
  let w1 := res.2
  (res.1.filterMap (getPatch w1)).flatMap (fun p =>
    p.neighbors.filterMap (fun rq =>
      match getPatch w1 rq.2 with
      | none => none
      | some q =>
        if patchHeightVal w1 q < w1.sea_level then none
        else
          let dist := sqrtFn (dist2 p.centroid q.centroid)
          some (p.name, q.name, dist * expFn (patchHeightVal w1 q - patchHeightVal w1 p))))

/-! ### Coastline cleanup and height editors -/
/-- One iteration of the `clean_coastline` loop for the vertex named `n`. -/
def coastStep (eps : ℚ) (w : World) (n : ℕ) : World :=
  match getVertex w n with
  | none => w
  | some v =>
    let nh := v.neighbors.filterMap (fun m => (getVertex w m).map (fun u => u.height))
    if v.height < w.sea_level ∧ 1 < (nh.filter (fun h => w.sea_level < h)).length then
      updVertex w n (fun u => { u with height := w.sea_level + eps })
    else if w.sea_level < v.height ∧ 1 < (nh.filter (fun h => h < w.sea_level)).length then
      updVertex w n (fun u => { u with height := w.sea_level - eps })
    else w

/-- Embeds `World.clean_coastline`. -/
def clean_coastline (w : World) (eps : ℚ) : World :=
  (w.vertices.map (fun v => v.name)).foldl (coastStep eps) w

/-- Embeds `World.add_slope` in its deterministic form (direction vector
given by the caller; the random-direction branch draws from the process
RNG and is outside this model). -/
def add_slope (w : World) (slope : ℚ × ℚ) : World :=
  { w with vertices := w.vertices.map (fun v =>
      if check_coord w v.coords then
        { v with height := v.coords.1 * slope.1 + v.coords.2 * slope.2 }
      else v) }

/-- Embeds `World.add_hill` with a given center (`expFn` models `np.exp`;
`v.dist(hill)**2` is exactly the squared distance, a rational). -/
def add_hill (expFn : ℚ → ℚ) (w : World) (hill : ℚ × ℚ) (r : ℚ) : World :=
  { w with vertices := w.vertices.map (fun v =>
      if check_coord w v.coords then
        { v with height := v.height + expFn (-dist2 v.coords hill / (2 * r ^ 2)) ^ 2 }
      else v) }

/-! ### Mesh construction from the tessellation (`World.__init__`) -/
/-- The tessellation decomposition consumed by `World.__init__` (the
fields of `scipy.spatial.Voronoi` the constructor reads): vertex
coordinates, ridge endpoint-index pairs and region index lists, where the
integer `-1` is the "point at infinity" sentinel. -/
structure VoronoiData where
  vertices : List (ℚ × ℚ)
  ridge_vertices : List (ℤ × ℤ)
  regions : List (List ℤ)
deriving DecidableEq

/-- Embeds `Vertex.add_neighbor`: `neighbors.add(neighbor)` and
`ridges[neighbor.name] = ridge` (the freshest dict binding in front). -/
def add_neighbor (v : Vertex) (n : ℕ) (rn : ℕ) : Vertex :=
  { v with neighbors := n :: v.neighbors, ridges := (n, rn) :: v.ridges }

/-- Embeds `World._make_vertices`: one `Vertex` per tessellation vertex,
with its index as name (`height=0`, `flux=1` per `Vertex.__init__`). -/
def make_vertices (d : VoronoiData) : List Vertex :=
  d.vertices.enum.map (fun ip => ⟨ip.1, ip.2, 0, 1, [], [], []⟩)

/-- One iteration of the `_make_ridges` loop for the `i`-th entry `p` of
`ridge_vertices`: skip pairs containing the sentinel, otherwise build
`Ridge(i, vertices[k], vertices[j])`, whose `__init__` registers it on
both endpoints via `add_neighbor`. -/
def makeRidgeStep (st : List Vertex × List Ridge) (i : ℕ) (p : ℤ × ℤ) :
    List Vertex × List Ridge :=
  if p.1 = -1 ∨ p.2 = -1 then st
  else
    let k := p.1.toNat
    let j := p.2.toNat
    let vs1 := st.1.map (fun v => if v.name = k then add_neighbor v j i else v)
    let vs2 := vs1.map (fun v => if v.name = j then add_neighbor v k i else v)
    (vs2, st.2 ++ [⟨i, k, j, 0, []⟩])

/-- Embeds `World._make_ridges` as a fold over the enumerated ridge list. -/
def make_ridges (d : VoronoiData) (vs : List Vertex) : List Vertex × List Ridge :=
  d.ridge_vertices.enum.foldl (fun st ip => makeRidgeStep st ip.1 ip.2) (vs, [])

/-- One iteration of the `_make_patches` loop for the `i`-th region: skip
regions containing the sentinel and empty regions; otherwise build
`Patch(i, [vertices[v] for v in region])`, whose `__init__` adds the patch
to each bounding vertex's patch set and computes the centroid. -/
def makePatchStep (st : List Vertex × List Patch) (i : ℕ) (region : List ℤ) :
    List Vertex × List Patch :=
  if (-1 : ℤ) ∈ region ∨ region = [] then st
  else
    let names := region.map Int.toNat
    let coords := (names.filterMap (getVertexL st.1)).map (fun v => v.coords)
    let vs1 := st.1.map (fun v => if v.name ∈ names then { v with patches := i :: v.patches } else v)
    (vs1, st.2 ++ [⟨i, names, [], find_centroid coords, none⟩])

/-- Embeds `World._make_patches` as a fold over the enumerated regions. -/
def make_patches (d : VoronoiData) (vs : List Vertex) : List Vertex × List Patch :=
  d.regions.enum.foldl (fun st ip => makePatchStep st ip.1 ip.2) (vs, [])

/-- One iteration of the `_make_neighbors` loop for ridge `r`: intersect
the endpoint patch sets; when the intersection has exactly two patches,
record each as the other's neighbor across `r` and add both to the
ridge's patch set.  (Smaller intersections are skipped as boundary
ridges; an intersection of more than two distinct patches would make the
Python two-element unpacking raise and cannot arise from a Voronoi
tessellation, so it is also left unlinked here.) -/
def makeNeighborStep (vs : List Vertex) (st : List Patch × List Ridge) (r : Ridge) :
    List Patch × List Ridge :=
  match getVertexL vs r.end_1, getVertexL vs r.end_2 with
  | some a, some b =>
    match (a.patches.filter (fun pn => pn ∈ b.patches)).dedup with
    | [p1, p2] =>
      let ps1 := st.1.map (fun p =>
        if p.name = p1 then { p with neighbors := (r.name, p2) :: p.neighbors }
        else if p.name = p2 then { p with neighbors := (r.name, p1) :: p.neighbors }
        else p)
      (ps1, st.2.map (fun r2 =>
        if r2.name = r.name then { r2 with patches := p2 :: p1 :: r2.patches } else r2))
    | _ => st
  | _, _ => st

/-- Embeds `World._make_neighbors`. -/
def make_neighbors (vs : List Vertex) (rs : List Ridge) (ps : List Patch) :
    List Patch × List Ridge :=
  rs.foldl (makeNeighborStep vs) (ps, rs)

/-- Embeds `World.__init__` from the tessellation decomposition onward:
`_make_vertices`, `_make_ridges`, `_make_patches`, `_make_neighbors`,
with `sea_level = 0` and an uncomputed `_land_patches` cache. -/
def make_world (d : VoronoiData) (x_lim y_lim : ℚ × ℚ) : World :=
  let vs0 := make_vertices d
  let vr := make_ridges d vs0
  let vp := make_patches d vr.1
  let pr := make_neighbors vp.1 vr.2 vp.2
  { vertices := vp.1, ridges := pr.2, patches := pr.1,
    sea_level := 0, x_lim := x_lim, y_lim := y_lim, landCache := [] }

/-- Two vertices with coincident coordinates (a zero-length ridge). -/
def vSlpC : Vertex := ⟨0, (1/2, 1/2), 3, 1, [], [], []⟩

/-- Second endpoint of the zero-length ridge, same coordinates. -/
def vSlpD : Vertex := ⟨1, (1/2, 1/2), 1, 1, [], [], []⟩

/-- First endpoint of a unit-length ridge used as the C7 witness input. -/
def vSlpA : Vertex := ⟨0, (0, 0), 3, 1, [], [], []⟩

/-- Second endpoint of the unit-length ridge. -/
def vSlpB : Vertex := ⟨1, (1, 0), 1, 1, [], [], []⟩

/-- A world whose two vertices have the same height. -/
def wNormCex : World :=
  { vertices := [⟨0, (1/4, 1/4), 5, 1, [], [], []⟩, ⟨1, (3/4, 1/4), 5, 1, [], [], []⟩],
    ridges := [], patches := [], sea_level := 0,
    x_lim := (0, 1), y_lim := (0, 1), landCache := [] }

/-- A world with two vertices of heights 2 and 6. -/
def wNorm : World :=
  { vertices := [⟨0, (1/4, 1/4), 2, 1, [], [], []⟩, ⟨1, (3/4, 1/4), 6, 1, [], [], []⟩],
    ridges := [], patches := [], sea_level := 0,
    x_lim := (0, 1), y_lim := (0, 1), landCache := [] }

/-- A world with three vertices of heights 4, 0, 2 (deliberately
unsorted). -/
def wPerc : World :=
  { vertices := [⟨0, (1/4, 1/4), 4, 1, [], [], []⟩,
                 ⟨1, (1/2, 1/4), 0, 1, [], [], []⟩,
                 ⟨2, (3/4, 1/4), 2, 1, [], [], []⟩],
    ridges := [], patches := [], sea_level := 0,
    x_lim := (0, 1), y_lim := (0, 1), landCache := [] }

/-- A world with one land patch (name 0, height 1) and one sea patch
(name 1, height 0); the patch heights are already memoized. -/
def wLand : World :=
  { vertices := [⟨0, (1/2, 1/2), 1, 1, [], [], []⟩, ⟨1, (1/4, 1/4), 0, 1, [], [], []⟩],
    ridges := [],
    patches := [⟨0, [0], [], (1/2, 1/2), some 1⟩, ⟨1, [1], [], (1/4, 1/4), some 0⟩],
    sea_level := 1/2, x_lim := (0, 1), y_lim := (0, 1), landCache := [] }

/-- A world with one ridge of flux 4 between vertices of heights 1 and 0. -/
def wErode : World :=
  { vertices := [⟨0, (0, 0), 1, 1, [1], [(1, 0)], []⟩, ⟨1, (1, 0), 0, 1, [0], [(0, 0)], []⟩],
    ridges := [⟨0, 0, 1, 4, []⟩],
    patches := [], sea_level := 0, x_lim := (-1, 2), y_lim := (-1, 1), landCache := [] }

/-- A three-vertex chain: vertex 0 (height 2) and vertex 1 (height 1) are
in bounds; vertex 2 (height 0) lies outside the bounding box.  Ridge 0
joins 0-1 and ridge 1 joins 1-2. -/
def wRiv : World :=
  { vertices := [⟨0, (1/2, 1/2), 2, 1, [1], [(1, 5)], []⟩,
                 ⟨1, (1/4, 1/2), 1, 1, [0, 2], [(0, 5), (2, 6)], []⟩,
                 ⟨2, (2, 2), 0, 1, [1], [(1, 6)], []⟩],
    ridges := [⟨5, 0, 1, 7, []⟩, ⟨6, 1, 2, 7, []⟩],
    patches := [], sea_level := 0, x_lim := (0, 1), y_lim := (0, 1), landCache := [] }

/-- A world with a land patch (name 0, frozen height 1) and a neighbor
patch (name 1) whose frozen height equals the sea level `1/2` exactly. -/
def wNet : World :=
  { vertices := [], ridges := [],
    patches := [⟨0, [], [(5, 1)], (2, 0), some 1⟩, ⟨1, [], [(5, 0)], (3, 0), some (1/2)⟩],
    sea_level := 1/2, x_lim := (0, 1), y_lim := (0, 1), landCache := [] }

/-! ### Construction infrastructure: projections and lookup transfer -/
/-- Name-and-coordinates projection of a vertex. -/
def vNC (v : Vertex) : ℕ × (ℚ × ℚ) := (v.name, v.coords)

/-- Adjacency-structure projection of a vertex (name, neighbor set,
neighbor-to-ridge map). -/
def vStruct (v : Vertex) : ℕ × List ℕ × List (ℕ × ℕ) := (v.name, v.neighbors, v.ridges)

/-- Endpoint-structure projection of a ridge. -/
def rStruct (r : Ridge) : ℕ × ℕ × ℕ := (r.name, r.end_1, r.end_2)

/-- Identity projection of a patch apart from its neighbor map. -/
def pStruct (p : Patch) : ℕ × List ℕ × (ℚ × ℚ) × Option ℚ :=
  (p.name, p.vertices, p.centroid, p.hCache)

/-! ### The mesh symmetry invariant -/
/-- Vertex `k` records `j` as a neighbor and retrieves ridge `i` from its
neighbor-to-ridge map. -/
def linkedAt (vs : List Vertex) (k j i : ℕ) : Prop :=
  ∃ a, getVertexL vs k = some a ∧ j ∈ a.neighbors ∧ a.ridges.lookup j = some i

/-- Mesh symmetry on a vertex/ridge list pair: every ridge is registered,
with its own name, on both of its endpoints. -/
def MeshSymmL (vs : List Vertex) (rs : List Ridge) : Prop :=
  ∀ r ∈ rs, linkedAt vs r.end_1 r.end_2 r.name ∧ linkedAt vs r.end_2 r.end_1 r.name

/-- Mesh symmetry of a world (§8 of the spec): for every Ridge `r` with
endpoints `A` and `B`, `A` is in `B`'s neighbor set and vice versa, and
`r` is retrievable from both sides' neighbor-to-ridge maps. -/
def MeshSymm (w : World) : Prop := MeshSymmL w.vertices w.ridges

/-- The patch that `_make_patches` materializes for the enumerated region
`ip` (centroid resolved against the freshly built vertex list). -/
def buildPatch (d : VoronoiData) (ip : ℕ × List ℤ) : Patch :=
  ⟨ip.1, ip.2.map Int.toNat, [],
    find_centroid
      (((ip.2.map Int.toNat).filterMap (getVertexL (make_vertices d))).map (fun v => v.coords)),
    none⟩

/-- Tessellation input whose only region has just two vertices and no
unbounded sentinel. -/
def dC9 : VoronoiData := ⟨[(1, 0), (3, 0), (1, 2)], [], [[0, 1]]⟩

/-- Tessellation input with one triangular region. -/
def dTri : VoronoiData := ⟨[(1, 0), (3, 0), (1, 2)], [], [[0, 1, 2]]⟩

/-! ### Claim C8: mesh symmetry -/
/-- A ridge-vertex pair free of the unbounded sentinel. -/
def okPair (p : ℤ × ℤ) : Prop := p.1 ≠ -1 ∧ p.2 ≠ -1

instance (p : ℤ × ℤ) : Decidable (okPair p) := by
  unfold okPair; infer_instance

/-- Equality of `(a, b)` and `(c, d)` as unordered pairs. -/
def unordEq (a b c d : ℕ) : Prop := (a = c ∧ b = d) ∨ (a = d ∧ b = c)

instance (a b c d : ℕ) : Decidable (unordEq a b c d) := by
  unfold unordEq; infer_instance

/-! ### Structure preservation of every mutating operation -/
/-- The adjacency structure of a world: vertex and ridge skeletons. -/
def structProj (w : World) : List (ℕ × List ℕ × List (ℕ × ℕ)) × List (ℕ × ℕ × ℕ) :=
  (w.vertices.map vStruct, w.ridges.map rStruct)

/-- A three-vertex tessellation with two bounded ridges and one
unbounded one. -/
def dSym : VoronoiData := ⟨[(1, 0), (3, 0), (1, 2)], [(0, 1), (1, 2), (-1, 0)], [[0, 1, 2]]⟩

/-! ### Basic facts about the embedding -/
lemma dist2_nonneg (a b : ℚ × ℚ) : 0 ≤ dist2 a b :=
  add_nonneg (sq_nonneg _) (sq_nonneg _)

lemma dist2_eq_zero_iff (a b : ℚ × ℚ) : dist2 a b = 0 ↔ a = b := by
  unfold dist2
  constructor
  · intro h
    have h1 : (a.1 - b.1) ^ 2 = 0 ∧ (a.2 - b.2) ^ 2 = 0 :=
      (add_eq_zero_iff_of_nonneg (sq_nonneg _) (sq_nonneg _)).mp h
    have e1 : a.1 = b.1 := by nlinarith [h1.1]
    have e2 : a.2 = b.2 := by nlinarith [h1.2]
    exact Prod.ext e1 e2
  · intro h; subst h; ring

lemma foldl_min_spec : ∀ (xs : List ℚ) (x : ℚ),
    (xs.foldl min x = x ∨ xs.foldl min x ∈ xs)
    ∧ xs.foldl min x ≤ x ∧ ∀ y ∈ xs, xs.foldl min x ≤ y := by
  intro xs
  induction xs with
  | nil => intro x; simp
  | cons y ys ih =>
    intro x
    have h := ih (min x y)
    refine ⟨?_, ?_, ?_⟩
    · rcases h.1 with h1 | h1
      · rcases min_choice x y with h2 | h2 <;> rw [List.foldl_cons, h1, h2]
        · exact Or.inl rfl
        · exact Or.inr (List.mem_cons_self _ _)
      · exact Or.inr (List.mem_cons_of_mem _ h1)
    · exact le_trans h.2.1 (min_le_left _ _)
    · intro z hz
      rcases List.mem_cons.mp hz with rfl | hz
      · exact le_trans h.2.1 (min_le_right _ _)
      · exact h.2.2 z hz

lemma foldl_max_spec : ∀ (xs : List ℚ) (x : ℚ),
    (xs.foldl max x = x ∨ xs.foldl max x ∈ xs)
    ∧ x ≤ xs.foldl max x ∧ ∀ y ∈ xs, y ≤ xs.foldl max x := by
  intro xs
  induction xs with
  | nil => intro x; simp
  | cons y ys ih =>
    intro x
    have h := ih (max x y)
    refine ⟨?_, ?_, ?_⟩
    · rcases h.1 with h1 | h1
      · rcases max_choice x y with h2 | h2 <;> rw [List.foldl_cons, h1, h2]
        · exact Or.inl rfl
        · exact Or.inr (List.mem_cons_self _ _)
      · exact Or.inr (List.mem_cons_of_mem _ h1)
    · exact le_trans (le_max_left _ _) h.2.1
    · intro z hz
      rcases List.mem_cons.mp hz with rfl | hz
      · exact le_trans (le_max_right _ _) h.2.1
      · exact h.2.2 z hz

lemma listMin_spec {l : List ℚ} {m : ℚ} (h : listMin l = some m) :
    m ∈ l ∧ ∀ x ∈ l, m ≤ x := by
  match l with
  | [] => simp [listMin] at h
  | x :: xs =>
    simp only [listMin, Option.some.injEq] at h
    subst h
    have h := foldl_min_spec xs x
    refine ⟨?_, ?_⟩
    · rcases h.1 with h1 | h1
      · rw [h1]; exact List.mem_cons_self _ _
      · exact List.mem_cons_of_mem _ h1
    · intro z hz
      rcases List.mem_cons.mp hz with rfl | hz
      · exact h.2.1
      · exact h.2.2 z hz

lemma listMax_spec {l : List ℚ} {m : ℚ} (h : listMax l = some m) :
    m ∈ l ∧ ∀ x ∈ l, x ≤ m := by
  match l with
  | [] => simp [listMax] at h
  | x :: xs =>
    simp only [listMax, Option.some.injEq] at h
    subst h
    have h := foldl_max_spec xs x
    refine ⟨?_, ?_⟩
    · rcases h.1 with h1 | h1
      · rw [h1]; exact List.mem_cons_self _ _
      · exact List.mem_cons_of_mem _ h1
    · intro z hz
      rcases List.mem_cons.mp hz with rfl | hz
      · exact h.2.1
      · exact h.2.2 z hz

lemma interp_bounds (s : List ℚ) (rank mn mx : ℚ)
    (hsorted : s.Sorted (fun a b : ℚ => a ≤ b))
    (hmem : ∀ x ∈ s, mn ≤ x ∧ x ≤ mx)
    (h0 : 0 ≤ rank) (hn : rank ≤ (s.length : ℚ) - 1) :
    mn ≤ s.getD (⌊rank⌋).toNat 0
          + (rank - (⌊rank⌋ : ℚ))
            * (s.getD ((⌊rank⌋).toNat + 1) (s.getD (⌊rank⌋).toNat 0)
               - s.getD (⌊rank⌋).toNat 0)
    ∧ s.getD (⌊rank⌋).toNat 0
          + (rank - (⌊rank⌋ : ℚ))
            * (s.getD ((⌊rank⌋).toNat + 1) (s.getD (⌊rank⌋).toNat 0)
               - s.getD (⌊rank⌋).toNat 0) ≤ mx := by
  have hfl0 : 0 ≤ ⌊rank⌋ := Int.le_floor.mpr (by exact_mod_cast h0)
  have hflub : ⌊rank⌋ ≤ (s.length : ℤ) - 1 := by
    have h2 : rank ≤ (((s.length : ℤ) - 1 : ℤ) : ℚ) := by push_cast; exact hn
    exact le_trans (Int.floor_mono h2) (le_of_eq (Int.floor_intCast _))
  have hi_lt : (⌊rank⌋).toNat < s.length := by omega
  have hfrac0 : 0 ≤ rank - (⌊rank⌋ : ℚ) := by
    have := Int.floor_le rank
    linarith
  have hfrac1 : rank - (⌊rank⌋ : ℚ) ≤ 1 := by
    have := Int.lt_floor_add_one rank
    linarith
  have hgetD : s.getD (⌊rank⌋).toNat 0 = s[(⌊rank⌋).toNat] := List.getD_eq_getElem s 0 hi_lt
  have hlo_mem : s[(⌊rank⌋).toNat] ∈ s := List.getElem_mem hi_lt
  have hlo := hmem _ hlo_mem
  by_cases hhi : (⌊rank⌋).toNat + 1 < s.length
  · have hgetD2 : s.getD ((⌊rank⌋).toNat + 1) (s.getD (⌊rank⌋).toNat 0)
        = s[(⌊rank⌋).toNat + 1] := List.getD_eq_getElem s _ hhi
    have hhi_mem : s[(⌊rank⌋).toNat + 1] ∈ s := List.getElem_mem hhi
    have hhi_b := hmem _ hhi_mem
    have hle : s[(⌊rank⌋).toNat] ≤ s[(⌊rank⌋).toNat + 1] :=
      List.pairwise_iff_getElem.mp hsorted _ _ hi_lt hhi (Nat.lt_succ_self _)
    rw [hgetD2, hgetD]
    have hp1 : 0 ≤ (rank - (⌊rank⌋ : ℚ)) * (s[(⌊rank⌋).toNat + 1] - s[(⌊rank⌋).toNat]) :=
      mul_nonneg hfrac0 (by linarith)
    have hp2 : (rank - (⌊rank⌋ : ℚ)) * (s[(⌊rank⌋).toNat + 1] - s[(⌊rank⌋).toNat])
        ≤ s[(⌊rank⌋).toNat + 1] - s[(⌊rank⌋).toNat] := by nlinarith
    constructor
    · linarith [hlo.1]
    · linarith [hhi_b.2]
  · have hgetD2 : s.getD ((⌊rank⌋).toNat + 1) (s.getD (⌊rank⌋).toNat 0)
        = s.getD (⌊rank⌋).toNat 0 := List.getD_eq_default _ _ (by omega)
    rw [hgetD2, hgetD]
    constructor
    · nlinarith [hlo.1]
    · nlinarith [hlo.2]

lemma percentile_bounds (data : List ℚ) (q mn mx : ℚ) (h1 : 1 ≤ q) (h100 : q ≤ 100)
    (hmn : listMin data = some mn) (hmx : listMax data = some mx) :
    mn ≤ percentile data q ∧ percentile data q ≤ mx := by
  unfold percentile
  dsimp only
  have hperm : (List.insertionSort (fun a b : ℚ => a ≤ b) data).Perm data :=
    List.perm_insertionSort _ _
  have hne : data ≠ [] := by
    intro hcon
    rw [hcon] at hmn
    simp [listMin] at hmn
  have hpos : 0 < (List.insertionSort (fun a b : ℚ => a ≤ b) data).length := by
    rw [hperm.length_eq]
    exact List.length_pos.mpr hne
  have hn1 : (1 : ℚ) ≤ ((List.insertionSort (fun a b : ℚ => a ≤ b) data).length : ℚ) := by
    exact_mod_cast hpos
  refine interp_bounds _ _ mn mx (List.sorted_insertionSort _ _) ?_ ?_ ?_
  · intro x hx
    have hxd : x ∈ data := hperm.mem_iff.mp hx
    exact ⟨(listMin_spec hmn).2 _ hxd, (listMax_spec hmx).2 _ hxd⟩
  · have : (0:ℚ) ≤ q := le_trans (by norm_num) h1
    have h2 : (0:ℚ) ≤ ((List.insertionSort (fun a b : ℚ => a ≤ b) data).length : ℚ) - 1 := by
      linarith
    positivity
  · rw [div_le_iff₀ (by norm_num : (0:ℚ) < 100)]
    nlinarith

/-! ### Claim C10: `erode_heights` ignores `drop_factor` -/
/-- C10: `erode_heights` is independent of its `drop_factor` argument — for
every mesh state, every `max_total` and every two values `d1`, `d2` of
`drop_factor`, the two calls produce identical results (in particular
identical vertex heights), because the height decrement applied to the
lower endpoint is the constant `0.1 * total / 500` and `drop_factor` is
never read. -/
theorem erode_heights_drop_factor_independent (sqrtFn : ℚ → ℚ) (w : World)
    (max_total d1 d2 : ℚ) :
    erode_heights sqrtFn w max_total d1 = erode_heights sqrtFn w max_total d2 := rfl

/-! ### Claim C7: zero-length ridge slope -/
/-- C7 (amended): `Ridge.slope` computes `|height difference| / length`
with no guard: for a ridge whose endpoints have distinct coordinates it
returns that quotient (a non-negative value, given that the square root of
a non-negative number is non-negative), but for a zero-length ridge
(coincident endpoint coordinates) the division is undefined — `NaN`
propagated by the floats, `none` in this model — not zero. -/
theorem ridgeSlope_spec (sqrtFn : ℚ → ℚ) (a b : Vertex) :
    (a.coords = b.coords → ridgeSlope sqrtFn a b = none)
    ∧ (a.coords ≠ b.coords →
        ridgeSlope sqrtFn a b = some (|a.height - b.height| / sqrtFn (dist2 a.coords b.coords)))
    ∧ (∀ s, (∀ x, 0 ≤ x → 0 ≤ sqrtFn x) → ridgeSlope sqrtFn a b = some s → 0 ≤ s) := by
  refine ⟨?_, ?_, ?_⟩
  · intro h
    unfold ridgeSlope
    rw [if_pos ((dist2_eq_zero_iff _ _).mpr h)]
  · intro h
    unfold ridgeSlope
    rw [if_neg (fun hc => h ((dist2_eq_zero_iff _ _).mp hc))]
  · intro s hs h
    unfold ridgeSlope at h
    by_cases hc : dist2 a.coords b.coords = 0
    · rw [if_pos hc] at h; exact absurd h (by simp)
    · rw [if_neg hc] at h
      have := Option.some.inj h
      subst this
      exact div_nonneg (abs_nonneg _) (hs _ (dist2_nonneg _ _))

/-- C7 counterexample: on a zero-length ridge (coincident endpoints) the
slope query does not return zero slope — the unguarded division is
undefined (`none`), refuting the claimed explicit guard. -/
theorem ridgeSlope_counterexample :
    vSlpC.coords = vSlpD.coords
    ∧ ridgeSlope id vSlpC vSlpD = none
    ∧ ridgeSlope id vSlpC vSlpD ≠ some 0 := by
  refine ⟨rfl, ?_, ?_⟩ <;> simp [ridgeSlope, dist2, vSlpC, vSlpD]

/-- C7 witness: on a concrete ridge with distinct endpoint coordinates the
characterization yields the expected slope value. -/
theorem ridgeSlope_spec_witness : ridgeSlope id vSlpA vSlpB = some 2 := by
  have h := (ridgeSlope_spec id vSlpA vSlpB).2.1 (by norm_num [vSlpA, vSlpB, Prod.ext_iff])
  rw [h]
  norm_num [vSlpA, vSlpB, dist2]

/-! ### Claim C6: `normalize_heights` -/
/-- C6 (amended): when the vertex heights are not all equal,
`normalize_heights` rescales every vertex height affinely so the minimum
maps to 0 and the maximum to 1 (all results lie in `[0, 1]`); when all
heights are equal (`max == min`) the unguarded division by zero makes the
operation fail (`ZeroDivisionError` / `NaN`, modelled `none`) — there is
no no-op guard. -/
theorem normalize_heights_spec (w : World) (mn mx : ℚ)
    (hmn : listMin (w.vertices.map (fun v => v.height)) = some mn)
    (hmx : listMax (w.vertices.map (fun v => v.height)) = some mx) :
    (mx = mn → normalize_heights w = none)
    ∧ (mn < mx → ∃ w2, normalize_heights w = some w2
        ∧ List.Forall₂ (fun v2 v => v2.name = v.name
            ∧ v2.height = (v.height - mn) / (mx - mn)
            ∧ (v.height = mn → v2.height = 0)
            ∧ (v.height = mx → v2.height = 1)
            ∧ 0 ≤ v2.height ∧ v2.height ≤ 1) w2.vertices w.vertices) := by
  constructor
  · intro he
    unfold normalize_heights
    rw [hmn, hmx]
    dsimp only
    rw [if_pos he]
  · intro hlt
    have hne : mx ≠ mn := ne_of_gt hlt
    have hd : (0 : ℚ) < mx - mn := by linarith
    unfold normalize_heights
    rw [hmn, hmx]
    dsimp only
    rw [if_neg hne]
    refine ⟨_, rfl, ?_⟩
    rw [List.forall₂_map_left_iff, List.forall₂_same]
    intro v hv
    have hmem : v.height ∈ w.vertices.map (fun v => v.height) :=
      List.mem_map_of_mem _ hv
    have h1 := (listMin_spec hmn).2 _ hmem
    have h2 := (listMax_spec hmx).2 _ hmem
    refine ⟨rfl, rfl, ?_, ?_, ?_, ?_⟩
    · intro he; simp only [he, sub_self, zero_div]
    · intro he; simp only [he]; exact div_self (ne_of_gt hd)
    · exact div_nonneg (by linarith) (le_of_lt hd)
    · exact (div_le_one hd).mpr (by linarith)

/-- C6 counterexample: with all vertex heights equal, `normalize_heights`
does not act as a safe no-op guard producing all-zero heights — the
division by `max - min = 0` fails (no world is returned). -/
theorem normalize_heights_counterexample : normalize_heights wNormCex = none := by
  norm_num [normalize_heights, wNormCex, listMin, listMax]

/-- C6 witness: on a concrete world with distinct heights the amended
characterization applies and produces the rescaled world. -/
theorem normalize_heights_spec_witness :
    ∃ w2, normalize_heights wNorm = some w2
      ∧ List.Forall₂ (fun v2 v => v2.name = v.name
          ∧ v2.height = (v.height - 2) / (6 - 2)
          ∧ (v.height = 2 → v2.height = 0)
          ∧ (v.height = 6 → v2.height = 1)
          ∧ 0 ≤ v2.height ∧ v2.height ≤ 1) w2.vertices wNorm.vertices :=
  (normalize_heights_spec wNorm 2 6
    (by norm_num [wNorm, listMin]) (by norm_num [wNorm, listMax])).2 (by norm_num)

/-! ### Cache-field preservation of the mutating operations -/
lemma updVertex_landCache (w : World) (n : ℕ) (f : Vertex → Vertex) :
    (updVertex w n f).landCache = w.landCache := rfl

lemma bumpRidgeFlux_landCache (w : World) (rn : ℕ) (d : ℚ) :
    (bumpRidgeFlux w rn d).landCache = w.landCache := rfl

lemma riverStep_landCache (s : World) (n : ℕ) : (riverStep s n).landCache = s.landCache := by
  unfold riverStep
  cases h : getVertex s n with
  | none => rfl
  | some v =>
    try dsimp only
    by_cases hc : check_coord s v.coords
    · rw [if_pos hc]
      cases hlo : lowestNeighbor s v with
      | none => rfl
      | some lo =>
        try dsimp only
        by_cases hlt : lo.height < v.height
        · rw [if_pos hlt]
          try dsimp only
          cases hrn : v.ridges.lookup lo.name with
          | none => rfl
          | some rn => rfl
        · rw [if_neg hlt]
    · rw [if_neg hc]

lemma foldl_landCache {α : Type} (step : World → α → World)
    (h : ∀ s a, (step s a).landCache = s.landCache) :
    ∀ (l : List α) (s : World), (l.foldl step s).landCache = s.landCache := by
  intro l
  induction l with
  | nil => intro s; rfl
  | cons a as ih => intro s; rw [List.foldl_cons, ih, h]

lemma make_rivers_landCache (w : World) : (make_rivers w).landCache = w.landCache := by
  unfold make_rivers
  exact foldl_landCache _ riverStep_landCache _ _

lemma erodeStep_landCache {sqrtFn : ℚ → ℚ} {mt : ℚ} {s s2 : World} {r : Ridge}
    (h : erodeStep sqrtFn mt s r = some s2) : s2.landCache = s.landCache := by
  unfold erodeStep at h
  by_cases hf : r.flux = 0
  · rw [if_pos hf] at h
    injection h with h
    rw [← h]
  · rw [if_neg hf] at h
    cases h1 : getVertex s r.end_1 with
    | none =>
      rw [h1] at h
      cases h2 : getVertex s r.end_2 <;> rw [h2] at h <;> simp at h
    | some a =>
      rw [h1] at h
      cases h2 : getVertex s r.end_2 with
      | none => rw [h2] at h; simp at h
      | some b =>
        rw [h2] at h
        dsimp only at h
        cases h3 : ridgeSlope sqrtFn a b with
        | none => rw [h3] at h; simp at h
        | some sl =>
          rw [h3] at h
          dsimp only at h
          injection h with h
          rw [← h]
          rfl

lemma erodePass_landCache {sqrtFn : ℚ → ℚ} {mt : ℚ} :
    ∀ {rs : List Ridge} {s s2 : World}, erodePass sqrtFn mt s rs = some s2 →
      s2.landCache = s.landCache := by
  intro rs
  induction rs with
  | nil =>
    intro s s2 h
    simp only [erodePass, Option.some.injEq] at h
    rw [← h]
  | cons r rs ih =>
    intro s s2 h
    simp only [erodePass, Option.bind_eq_some] at h
    obtain ⟨s1, h1, h2⟩ := h
    rw [ih h2, erodeStep_landCache h1]

lemma erode_heights_landCache {sqrtFn : ℚ → ℚ} {w w2 : World} {mt d : ℚ}
    (h : erode_heights sqrtFn w mt d = some w2) : w2.landCache = w.landCache :=
  erodePass_landCache h

lemma coastStep_landCache (eps : ℚ) (s : World) (n : ℕ) :
    (coastStep eps s n).landCache = s.landCache := by
  unfold coastStep
  cases h : getVertex s n with
  | none => rfl
  | some v =>
    try dsimp only
    split
    · rfl
    · split
      · rfl
      · rfl

lemma clean_coastline_landCache (w : World) (eps : ℚ) :
    (clean_coastline w eps).landCache = w.landCache := by
  unfold clean_coastline
  exact foldl_landCache _ (coastStep_landCache eps) _ _

lemma set_sea_level_landCache (w : World) (v : ℚ) :
    (set_sea_level w v).landCache = w.landCache := by
  unfold set_sea_level
  split <;> rfl

lemma normalize_heights_landCache {w w2 : World} (h : normalize_heights w = some w2) :
    w2.landCache = w.landCache := by
  unfold normalize_heights at h
  cases hmn : listMin (w.vertices.map (fun v => v.height)) with
  | none =>
    rw [hmn] at h
    cases hmx : listMax (w.vertices.map (fun v => v.height)) <;> rw [hmx] at h <;> simp at h
  | some mn =>
    rw [hmn] at h
    cases hmx : listMax (w.vertices.map (fun v => v.height)) with
    | none => rw [hmx] at h; simp at h
    | some mx =>
      rw [hmx] at h
      dsimp only at h
      by_cases he : mx = mn
      · rw [if_pos he] at h; simp at h
      · rw [if_neg he] at h
        injection h with h
        rw [← h]

/-! ### Claim C4: `set_sea_level` dual interpretation -/
/-- C4: `set_sea_level(value)` with `value < 1` sets `sea_level` to exactly
`value`; with `value ≥ 1` (including exactly `1`) it sets `sea_level` to
the `value`-th percentile of the current vertex-height distribution (for a
valid percentile argument and a nonempty mesh, that percentile lies
between the minimum and maximum vertex height). -/
theorem set_sea_level_spec (w : World) (v : ℚ) :
    (v < 1 → (set_sea_level w v).sea_level = v)
    ∧ (1 ≤ v → (set_sea_level w v).sea_level
        = percentile (w.vertices.map (fun x => x.height)) v)
    ∧ (1 ≤ v → v ≤ 100 → ∀ mn mx,
        listMin (w.vertices.map (fun x => x.height)) = some mn →
        listMax (w.vertices.map (fun x => x.height)) = some mx →
        mn ≤ (set_sea_level w v).sea_level ∧ (set_sea_level w v).sea_level ≤ mx) := by
  refine ⟨?_, ?_, ?_⟩
  · intro h
    unfold set_sea_level
    rw [if_pos h]
  · intro h
    unfold set_sea_level
    rw [if_neg (not_lt.mpr h)]
  · intro h1 h100 mn mx hmn hmx
    unfold set_sea_level
    rw [if_neg (not_lt.mpr h1)]
    dsimp only
    exact percentile_bounds _ v mn mx h1 h100 hmn hmx

/-- C4 witness: `set_sea_level 0.5` stores `0.5` directly; `set_sea_level
50` stores the 50th percentile (the median, `2`); `set_sea_level 1`
(exactly the boundary) goes to the percentile branch and stores the
interpolated 1st percentile `1/25`. -/
theorem set_sea_level_spec_witness :
    (set_sea_level wPerc (1/2)).sea_level = 1/2
    ∧ (set_sea_level wPerc 50).sea_level = 2
    ∧ (set_sea_level wPerc 1).sea_level = 1/25 := by
  refine ⟨(set_sea_level_spec wPerc (1/2)).1 (by norm_num), ?_, ?_⟩
  · have h := (set_sea_level_spec wPerc 50).2.1 (by norm_num)
    rw [h]
    norm_num [percentile, wPerc]
  · have h := (set_sea_level_spec wPerc 1).2.1 (by norm_num)
    rw [h]
    norm_num [percentile, wPerc]

/-! ### Claim C5: the `land_patches` caching quirk -/
lemma land_patches_cache {u u2 : World} {r : List ℕ} (h : land_patches u = (r, u2)) :
    u2.landCache = r := by
  unfold land_patches at h
  by_cases hc : u.landCache = []
  · rw [if_pos hc] at h
    injection h with h1 h2
    rw [← h1, ← h2]
  · rw [if_neg hc] at h
    injection h with h1 h2
    rw [← h1, ← h2]

/-- C5: `land_patches` returns the patches with `height > sea_level`
(conjunct 1, on a world whose cache is uncomputed, which also stores the
result); a nonempty cache is returned unchanged (conjunct 2); once an
evaluation has produced a nonempty result, any later world carrying the
same cache — in particular one reached by height or sea-level mutation,
which never touch the cache (conjuncts 4-9) — gets the cached result back
unchanged (conjunct 3); and an empty result leaves the cache empty, so the
set is recomputed from the then-current state on every later access
(conjuncts 1 and 3 together with `land_patches_cache`). -/
theorem land_patches_spec :
    (∀ u : World, u.landCache = [] →
       (∀ pn, pn ∈ (land_patches u).1 ↔
          ∃ p ∈ u.patches, p.name = pn ∧ u.sea_level < patchHeightVal u p)
       ∧ (land_patches u).2.landCache = (land_patches u).1)
    ∧ (∀ u : World, u.landCache ≠ [] → land_patches u = (u.landCache, u))
    ∧ (∀ (u u2 : World) (r : List ℕ), land_patches u = (r, u2) → r ≠ [] →
        ∀ u3 : World, u3.landCache = u2.landCache → land_patches u3 = (r, u3))
    ∧ (∀ u h, (set_heights u h).landCache = u.landCache)
    ∧ (∀ u v, (set_sea_level u v).landCache = u.landCache)
    ∧ (∀ u, (make_rivers u).landCache = u.landCache)
    ∧ (∀ u e, (clean_coastline u e).landCache = u.landCache)
    ∧ (∀ u u2, normalize_heights u = some u2 → u2.landCache = u.landCache)
    ∧ (∀ sq u mt d u2, erode_heights sq u mt d = some u2 → u2.landCache = u.landCache) := by
  refine ⟨?_, ?_, ?_, fun u h => rfl, set_sea_level_landCache, make_rivers_landCache,
    clean_coastline_landCache, fun u u2 h => normalize_heights_landCache h,
    fun sq u mt d u2 h => erode_heights_landCache h⟩
  · intro u hu
    constructor
    · intro pn
      unfold land_patches
      rw [if_pos hu]
      simp only [freezeHeights, List.mem_map, List.mem_filter, decide_eq_true_eq]
      constructor
      · rintro ⟨q, ⟨⟨p, hp, rfl⟩, hc⟩, rfl⟩
        exact ⟨p, hp, rfl, hc⟩
      · rintro ⟨p, hp, rfl, hc⟩
        exact ⟨_, ⟨⟨p, hp, rfl⟩, hc⟩, rfl⟩
    · unfold land_patches
      rw [if_pos hu]
  · intro u hu
    unfold land_patches
    rw [if_neg hu]
  · intro u u2 r hlp hr u3 h3
    have hc : u3.landCache = r := by rw [h3, land_patches_cache hlp]
    have hne : u3.landCache ≠ [] := by rw [hc]; exact hr
    unfold land_patches
    rw [if_neg hne, hc]

/-- C5 witness: on `wLand` the first evaluation returns the nonempty land
set `[0]`; after that, even flattening every vertex height to `0` leaves
the query returning the stale cached result. -/
theorem land_patches_spec_witness :
    (0 ∈ (land_patches wLand).1)
    ∧ land_patches (set_heights (land_patches wLand).2 0)
      = ((land_patches wLand).1, set_heights (land_patches wLand).2 0) := by
  have h1 : (land_patches wLand).1 = [0] := by
    norm_num [land_patches, freezeHeights, patchHeightVal, getVertex, getVertexL, listMin, wLand]
  constructor
  · rw [h1]; exact List.mem_singleton.mpr rfl
  · exact land_patches_spec.2.2.1 wLand (land_patches wLand).2 (land_patches wLand).1 rfl
      (by rw [h1]; exact List.cons_ne_nil _ _) _ (land_patches_spec.2.2.2.1 _ 0)

/-! ### Claim C2: erosion monotonicity and bound -/
lemma ridgeSlope_nonneg {sqrtFn : ℚ → ℚ} {a b : Vertex} {sl : ℚ}
    (hs : ∀ x, 0 ≤ x → 0 ≤ sqrtFn x) (h : ridgeSlope sqrtFn a b = some sl) : 0 ≤ sl := by
  unfold ridgeSlope at h
  by_cases hc : dist2 a.coords b.coords = 0
  · rw [if_pos hc] at h; simp at h
  · rw [if_neg hc] at h
    injection h with h
    rw [← h]
    exact div_nonneg (abs_nonneg _) (hs _ (dist2_nonneg _ _))

lemma erode_dec_bounds {mt x sl : ℚ} (hm : 0 ≤ mt) (hx : 0 ≤ x) (hsl : 0 ≤ sl) :
    0 ≤ 1/10 * min (1000 * (x * sl) + sl ^ 2) mt / 500
    ∧ 1/10 * min (1000 * (x * sl) + sl ^ 2) mt / 500 ≤ 1/10 * mt / 500 := by
  have ht : 0 ≤ min (1000 * (x * sl) + sl ^ 2) mt :=
    le_min (by nlinarith) hm
  have htm : min (1000 * (x * sl) + sl ^ 2) mt ≤ mt := min_le_right _ _
  constructor
  · positivity
  · linarith

lemma erodeStep_eq {sqrtFn : ℚ → ℚ} {mt : ℚ} {s : World} {r : Ridge} {a b : Vertex} {sl : ℚ}
    (hf : r.flux ≠ 0)
    (h1 : getVertex s r.end_1 = some a) (h2 : getVertex s r.end_2 = some b)
    (h3 : ridgeSlope sqrtFn a b = some sl) :
    erodeStep sqrtFn mt s r =
      some (updVertex s (if a.height ≤ b.height then a.name else b.name)
        (fun u => { u with height :=
          u.height - 1/10 * min (1000 * (sqrtFn r.flux * sl) + sl ^ 2) mt / 500 })) := by
  unfold erodeStep
  rw [if_neg hf, h1, h2]
  dsimp only
  rw [h3]

lemma forall₂_nameLe_trans : ∀ {l1 l2 l3 : List Vertex},
    List.Forall₂ (fun v2 v => v2.name = v.name ∧ v2.height ≤ v.height) l1 l2 →
    List.Forall₂ (fun v2 v => v2.name = v.name ∧ v2.height ≤ v.height) l2 l3 →
    List.Forall₂ (fun v2 v => v2.name = v.name ∧ v2.height ≤ v.height) l1 l3 := by
  intro l1 l2 l3 h1
  induction h1 generalizing l3 with
  | nil =>
    intro h2
    cases h2
    exact List.Forall₂.nil
  | @cons a b la lb hab _ ih =>
    intro h2
    cases h2 with
    | cons hbc tbc =>
      exact List.Forall₂.cons ⟨hab.1.trans (by exact hbc.1), le_trans hab.2 hbc.2⟩ (ih tbc)

lemma erodeStep_mono {sqrtFn : ℚ → ℚ} {mt : ℚ} {s s2 : World} {r : Ridge}
    (hs : ∀ x, 0 ≤ x → 0 ≤ sqrtFn x) (hm : 0 ≤ mt) (hfr : 0 ≤ r.flux)
    (hok : erodeStep sqrtFn mt s r = some s2) :
    List.Forall₂ (fun v2 v => v2.name = v.name ∧ v2.height ≤ v.height) s2.vertices s.vertices := by
  by_cases hf : r.flux = 0
  · unfold erodeStep at hok
    rw [if_pos hf] at hok
    injection hok with hok
    subst hok
    exact List.forall₂_same.mpr (fun v _ => ⟨rfl, le_refl _⟩)
  · cases h1 : getVertex s r.end_1 with
    | none =>
      unfold erodeStep at hok
      rw [if_neg hf, h1] at hok
      cases h2 : getVertex s r.end_2 <;> rw [h2] at hok <;> simp at hok
    | some a =>
      cases h2 : getVertex s r.end_2 with
      | none =>
        unfold erodeStep at hok
        rw [if_neg hf, h1, h2] at hok
        simp at hok
      | some b =>
        cases h3 : ridgeSlope sqrtFn a b with
        | none =>
          unfold erodeStep at hok
          rw [if_neg hf, h1, h2] at hok
          dsimp only at hok
          rw [h3] at hok
          simp at hok
        | some sl =>
          rw [erodeStep_eq hf h1 h2 h3] at hok
          injection hok with hok
          subst hok
          have hsl : 0 ≤ sl := ridgeSlope_nonneg hs h3
          have hdec := erode_dec_bounds hm (hs _ hfr) hsl
          unfold updVertex
          dsimp only
          rw [List.forall₂_map_left_iff, List.forall₂_same]
          intro v _
          by_cases hn : v.name = (if a.height ≤ b.height then a.name else b.name)
          · rw [if_pos hn]
            exact ⟨rfl, by dsimp only; linarith [hdec.1]⟩
          · rw [if_neg hn]
            exact ⟨rfl, le_refl _⟩

lemma erodePass_mono {sqrtFn : ℚ → ℚ} {mt : ℚ}
    (hs : ∀ x, 0 ≤ x → 0 ≤ sqrtFn x) (hm : 0 ≤ mt) :
    ∀ {rs : List Ridge} {s s2 : World}, (∀ r ∈ rs, 0 ≤ r.flux) →
      erodePass sqrtFn mt s rs = some s2 →
      List.Forall₂ (fun v2 v => v2.name = v.name ∧ v2.height ≤ v.height)
        s2.vertices s.vertices := by
  intro rs
  induction rs with
  | nil =>
    intro s s2 _ h
    simp only [erodePass, Option.some.injEq] at h
    subst h
    exact List.forall₂_same.mpr (fun v _ => ⟨rfl, le_refl _⟩)
  | cons r rs ih =>
    intro s s2 hfx h
    simp only [erodePass, Option.bind_eq_some] at h
    obtain ⟨s1, hstep, hrest⟩ := h
    exact forall₂_nameLe_trans
      (ih (fun x hx => hfx x (List.mem_cons_of_mem _ hx)) hrest)
      (erodeStep_mono hs hm (hfx r (List.mem_cons_self _ _)) hstep)

/-- C2: a successful `erode_heights` pass (a) never increases any vertex
height; (b) skips ridges with zero flux, changing nothing for them; and
(c) for a ridge with nonzero flux and a well-defined slope it computes
`total = min(1000*sqrt(flux)*slope + slope^2, max_total)` and subtracts
exactly `0.1 * total / 500` from the lower-height endpoint (`end_1` on
ties), a decrement that is non-negative and never exceeds
`0.1 * max_total / 500` when the ridge flux is non-negative. -/
theorem erode_heights_spec (sqrtFn : ℚ → ℚ) (w w2 : World) (max_total d : ℚ)
    (hs : ∀ x, 0 ≤ x → 0 ≤ sqrtFn x)
    (hf : ∀ r ∈ w.ridges, 0 ≤ r.flux)
    (hm : 0 ≤ max_total)
    (hok : erode_heights sqrtFn w max_total d = some w2) :
    List.Forall₂ (fun v2 v => v2.name = v.name ∧ v2.height ≤ v.height) w2.vertices w.vertices
    ∧ (∀ (s : World) (r : Ridge), r.flux = 0 → erodeStep sqrtFn max_total s r = some s)
    ∧ (∀ (s : World) (r : Ridge) (a b : Vertex) (sl : ℚ), r.flux ≠ 0 →
        getVertex s r.end_1 = some a → getVertex s r.end_2 = some b →
        ridgeSlope sqrtFn a b = some sl →
        erodeStep sqrtFn max_total s r =
          some (updVertex s (if a.height ≤ b.height then a.name else b.name)
            (fun u => { u with height :=
              u.height - 1/10 * min (1000 * (sqrtFn r.flux * sl) + sl ^ 2) max_total / 500 }))
        ∧ (0 ≤ r.flux →
            0 ≤ 1/10 * min (1000 * (sqrtFn r.flux * sl) + sl ^ 2) max_total / 500
            ∧ 1/10 * min (1000 * (sqrtFn r.flux * sl) + sl ^ 2) max_total / 500
              ≤ 1/10 * max_total / 500)) := by
  refine ⟨erodePass_mono hs hm hf hok, ?_, ?_⟩
  · intro s r hfz
    unfold erodeStep
    rw [if_pos hfz]
  · intro s r a b sl hfz h1 h2 h3
    refine ⟨erodeStep_eq hfz h1 h2 h3, ?_⟩
    intro hfr
    exact erode_dec_bounds hm (hs _ hfr) (ridgeSlope_nonneg hs h3)

/-- C2 witness: one erosion pass on `wErode` (with `sqrt` instantiated by
a function agreeing with it on the inputs used) succeeds, and the theorem
yields the monotonicity conclusion at this concrete input. -/
theorem erode_heights_spec_witness :
    ∃ w2, erode_heights id wErode 500 (1/10) = some w2
      ∧ List.Forall₂ (fun v2 v => v2.name = v.name ∧ v2.height ≤ v.height)
          w2.vertices wErode.vertices := by
  cases hok : erode_heights id wErode 500 (1/10) with
  | none =>
    exfalso
    revert hok
    norm_num [erode_heights, erodePass, erodeStep, ridgeSlope, dist2, getVertex, getVertexL,
      updVertex, wErode, List.find?]
    exact Option.some_ne_none _
  | some w2 =>
    exact ⟨w2, rfl,
      (erode_heights_spec id wErode w2 500 (1/10) (fun x hx => hx)
        (by intro r hr; rw [wErode] at hr; simp at hr; rw [hr]; norm_num)
        (by norm_num) hok).1⟩

/-! ### Claim C1: flow accumulation -/
lemma foldl_minBy_spec : ∀ (xs : List Vertex) (x : Vertex),
    (xs.foldl (fun acc y => if y.height < acc.height then y else acc) x = x
      ∨ xs.foldl (fun acc y => if y.height < acc.height then y else acc) x ∈ xs)
    ∧ (xs.foldl (fun acc y => if y.height < acc.height then y else acc) x).height ≤ x.height
    ∧ ∀ u ∈ xs, (xs.foldl (fun acc y => if y.height < acc.height then y else acc) x).height ≤ u.height := by
  intro xs
  induction xs with
  | nil => intro x; simp
  | cons y ys ih =>
    intro x
    have h := ih (if y.height < x.height then y else x)
    have hz : (if y.height < x.height then y else x).height ≤ x.height := by
      split
      · linarith [show y.height < x.height by assumption]
      · exact le_refl _
    have hzy : (if y.height < x.height then y else x).height ≤ y.height := by
      split
      · exact le_refl _
      · linarith [not_lt.mp (by assumption : ¬ y.height < x.height)]
    refine ⟨?_, ?_, ?_⟩
    · rw [List.foldl_cons]
      rcases h.1 with h1 | h1
      · rw [h1]
        split
        · exact Or.inr (List.mem_cons_self _ _)
        · exact Or.inl rfl
      · exact Or.inr (List.mem_cons_of_mem _ h1)
    · rw [List.foldl_cons]
      exact le_trans h.2.1 hz
    · intro u hu
      rw [List.foldl_cons]
      rcases List.mem_cons.mp hu with rfl | hu
      · exact le_trans h.2.1 hzy
      · exact h.2.2 u hu

lemma lowestNeighbor_spec {w : World} {v lo : Vertex} (h : lowestNeighbor w v = some lo) :
    lo ∈ v.neighbors.filterMap (getVertex w)
    ∧ ∀ u ∈ v.neighbors.filterMap (getVertex w), lo.height ≤ u.height := by
  unfold lowestNeighbor at h
  cases hl : v.neighbors.filterMap (getVertex w) with
  | nil => rw [hl] at h; simp at h
  | cons x xs =>
    rw [hl] at h
    injection h with h
    subst h
    have hf := foldl_minBy_spec xs x
    refine ⟨?_, ?_⟩
    · rcases hf.1 with h1 | h1
      · rw [h1]; exact List.mem_cons_self _ _
      · exact List.mem_cons_of_mem _ h1
    · intro u hu
      rcases List.mem_cons.mp hu with rfl | hu
      · exact hf.2.1
      · exact hf.2.2 u hu

/-- C1: `make_rivers` (a, b) resets every vertex flux to `1/|V|` and every
ridge flux to `0`; (c) then processes exactly the vertices, in an order
sorted by descending height, through `riverStep`; and (d) each step on a
vertex `v`: does nothing when `v` is out of bounds (out-of-bounds vertices
are never flux sources); otherwise finds a neighbor `lowest` of minimal
height among `v`'s neighbors, and if and only if `lowest.height <
v.height`, adds `v`'s current flux to `lowest.flux` and to the flux of the
connecting ridge `v.ridges[lowest.name]` — in particular the update does
not test whether `lowest` is in bounds, so out-of-bounds vertices can
receive flux as destinations. -/
theorem make_rivers_spec (w : World) :
    (∀ v ∈ (reset_rivers w).vertices, v.flux = 1 / (w.vertices.length : ℚ))
    ∧ (∀ r ∈ (reset_rivers w).ridges, r.flux = 0)
    ∧ (∃ vs : List Vertex,
        vs.Perm (reset_rivers w).vertices
        ∧ vs.Sorted heightGE
        ∧ make_rivers w = (vs.map (fun v => v.name)).foldl riverStep (reset_rivers w))
    ∧ (∀ (s : World) (n : ℕ) (v : Vertex), getVertex s n = some v →
        (¬ check_coord s v.coords → riverStep s n = s)
        ∧ (check_coord s v.coords → ∀ lo, lowestNeighbor s v = some lo →
            (lo ∈ v.neighbors.filterMap (getVertex s)
              ∧ ∀ u ∈ v.neighbors.filterMap (getVertex s), lo.height ≤ u.height)
            ∧ (¬ lo.height < v.height → riverStep s n = s)
            ∧ (lo.height < v.height → ∀ rn, v.ridges.lookup lo.name = some rn →
                riverStep s n =
                  bumpRidgeFlux (updVertex s lo.name (fun u => { u with flux := u.flux + v.flux }))
                    rn v.flux))) := by
  refine ⟨?_, ?_, ?_, ?_⟩
  · intro v hv
    unfold reset_rivers at hv
    simp only [List.mem_map] at hv
    obtain ⟨u, _, rfl⟩ := hv
    rfl
  · intro r hr
    unfold reset_rivers at hr
    simp only [List.mem_map] at hr
    obtain ⟨u, _, rfl⟩ := hr
    rfl
  · refine ⟨List.insertionSort heightGE (reset_rivers w).vertices,
      List.perm_insertionSort _ _, List.sorted_insertionSort _ _, rfl⟩
  · intro s n v hv
    constructor
    · intro hnc
      unfold riverStep
      rw [hv]
      try dsimp only
      rw [if_neg hnc]
    · intro hc lo hlo
      refine ⟨lowestNeighbor_spec hlo, ?_, ?_⟩
      · intro hnlt
        unfold riverStep
        rw [hv]
        try dsimp only
        rw [if_pos hc, hlo]
        try dsimp only
        rw [if_neg hnlt]
      · intro hlt rn hrn
        unfold riverStep
        rw [hv]
        try dsimp only
        rw [if_pos hc, hlo]
        try dsimp only
        rw [if_pos hlt]
        try dsimp only
        rw [hrn]

/-- C1 witness: on `wRiv` the pass leaves fluxes `1/3, 2/3, 1` on the
vertices (the out-of-bounds vertex 2 received flux as a destination) and
`1/3, 2/3` on the ridges; the reset gives every vertex `1/3`; and the
out-of-bounds vertex 2 is not a source (its step is a no-op). -/
theorem make_rivers_spec_witness :
    ((make_rivers wRiv).vertices.map (fun v => (v.name, v.flux)) = [(0, 1/3), (1, 2/3), (2, 1)])
    ∧ ((make_rivers wRiv).ridges.map (fun r => (r.name, r.flux)) = [(5, 1/3), (6, 2/3)])
    ∧ ¬ check_coord wRiv (2, 2)
    ∧ (∀ v ∈ (reset_rivers wRiv).vertices, v.flux = 1 / (wRiv.vertices.length : ℚ))
    ∧ riverStep (reset_rivers wRiv) 2 = reset_rivers wRiv := by
  refine ⟨?_, ?_, ?_, (make_rivers_spec wRiv).1, ?_⟩
  · norm_num [make_rivers, reset_rivers, riverStep, lowestNeighbor, bumpRidgeFlux, updVertex,
      getVertex, getVertexL, check_coord, heightGE, wRiv, List.find?, List.filterMap_cons,
      (show List.lookup 1 [((1:ℕ), (5:ℕ))] = some 5 from rfl),
      (show List.lookup 2 [((0:ℕ), (5:ℕ)), (2, 6)] = some 6 from rfl)]
  · norm_num [make_rivers, reset_rivers, riverStep, lowestNeighbor, bumpRidgeFlux, updVertex,
      getVertex, getVertexL, check_coord, heightGE, wRiv, List.find?, List.filterMap_cons,
      (show List.lookup 1 [((1:ℕ), (5:ℕ))] = some 5 from rfl),
      (show List.lookup 2 [((0:ℕ), (5:ℕ)), (2, 6)] = some 6 from rfl)]
  · norm_num [check_coord, wRiv]
  · have hv2 : getVertex (reset_rivers wRiv) 2
        = some ⟨2, (2, 2), 0, 1/3, [1], [(1, 6)], []⟩ := by
      norm_num [getVertex, getVertexL, reset_rivers, wRiv, List.find?]
    exact ((make_rivers_spec wRiv).2.2.2 _ 2 _ hv2).1 (by norm_num [check_coord, reset_rivers, wRiv])

/-! ### Claim C3: the navigation graph -/
lemma getPatch_name {u : World} {n : ℕ} {p : Patch} (h : getPatch u n = some p) :
    p.name = n := by
  have := List.find?_some h
  simpa using this

/-- C3 (amended): the directed patch graph contains the edge `a -> b` with
weight `wt` exactly when `a` is a land patch (member of `land_patches`),
`b` is one of its neighbors across a ridge whose height is **at least**
`sea_level` (the code only skips neighbors with `height < sea_level`, so a
neighbor at exactly sea level gets an edge although it is not land), and
`wt` is the centroid distance times `exp(height(b) - height(a))`; every
such weight is strictly positive provided `exp` is positive, the square
root of a positive number is positive, and the two centroids differ. -/
theorem patch_network_spec (sqrtFn expFn : ℚ → ℚ) (w : World) (a b : ℕ) (wt : ℚ) :
    ((a, b, wt) ∈ networkEdges sqrtFn expFn w ↔
      ∃ p q rn, a ∈ (land_patches w).1
        ∧ getPatch (land_patches w).2 a = some p
        ∧ (rn, b) ∈ p.neighbors
        ∧ getPatch (land_patches w).2 b = some q
        ∧ (land_patches w).2.sea_level ≤ patchHeightVal (land_patches w).2 q
        ∧ wt = sqrtFn (dist2 p.centroid q.centroid)
              * expFn (patchHeightVal (land_patches w).2 q - patchHeightVal (land_patches w).2 p))
    ∧ ((∀ x, 0 < expFn x) → (∀ x, 0 < x → 0 < sqrtFn x) →
        (a, b, wt) ∈ networkEdges sqrtFn expFn w →
        ∀ p q, getPatch (land_patches w).2 a = some p →
          getPatch (land_patches w).2 b = some q →
          p.centroid ≠ q.centroid → 0 < wt) := by
  have hmain : (a, b, wt) ∈ networkEdges sqrtFn expFn w ↔
      ∃ p q rn, a ∈ (land_patches w).1
        ∧ getPatch (land_patches w).2 a = some p
        ∧ (rn, b) ∈ p.neighbors
        ∧ getPatch (land_patches w).2 b = some q
        ∧ (land_patches w).2.sea_level ≤ patchHeightVal (land_patches w).2 q
        ∧ wt = sqrtFn (dist2 p.centroid q.centroid)
              * expFn (patchHeightVal (land_patches w).2 q - patchHeightVal (land_patches w).2 p) := by
    unfold networkEdges
    dsimp only
    rw [List.mem_flatMap]
    constructor
    · rintro ⟨p, hp, hinner⟩
      rw [List.mem_filterMap] at hp
      obtain ⟨pn, hpnL, hgp⟩ := hp
      rw [List.mem_filterMap] at hinner
      obtain ⟨rq, hrq, hsome⟩ := hinner
      cases hq : getPatch (land_patches w).2 rq.2 with
      | none => rw [hq] at hsome; simp at hsome
      | some q =>
        rw [hq] at hsome
        dsimp only at hsome
        by_cases hlt : patchHeightVal (land_patches w).2 q < (land_patches w).2.sea_level
        · rw [if_pos hlt] at hsome; simp at hsome
        · rw [if_neg hlt] at hsome
          injection hsome with hsome
          rw [Prod.ext_iff] at hsome
          obtain ⟨hname, hrest⟩ := hsome
          rw [Prod.ext_iff] at hrest
          obtain ⟨hqname, hwt⟩ := hrest
          dsimp only at hname hqname hwt
          have hpn : p.name = pn := getPatch_name hgp
          have hqn : q.name = rq.2 := getPatch_name hq
          have hpa : pn = a := hpn.symm.trans hname
          have hrqb : rq.2 = b := hqn.symm.trans hqname
          subst hpa
          subst hrqb
          exact ⟨p, q, rq.1, hpnL, hgp, Prod.mk.eta ▸ hrq, hq, not_lt.mp hlt, hwt.symm⟩
    · rintro ⟨p, q, rn, hL, hgp, hnb, hgq, hsea, hwt⟩
      refine ⟨p, ?_, ?_⟩
      · rw [List.mem_filterMap]
        exact ⟨a, hL, hgp⟩
      · rw [List.mem_filterMap]
        refine ⟨(rn, b), hnb, ?_⟩
        rw [hgq]
        dsimp only
        rw [if_neg (not_lt.mpr hsea)]
        rw [getPatch_name hgp, getPatch_name hgq, hwt]
  refine ⟨hmain, ?_⟩
  intro hexp hsqrt hmem p q hgp hgq hcent
  obtain ⟨p2, q2, rn, _, hgp2, _, hgq2, _, hwt⟩ := hmain.mp hmem
  rw [hgp] at hgp2
  rw [hgq] at hgq2
  injection hgp2 with hgp2
  injection hgq2 with hgq2
  subst hgp2
  subst hgq2
  have hd : 0 < dist2 p.centroid q.centroid := by
    rcases lt_or_eq_of_le (dist2_nonneg p.centroid q.centroid) with h | h
    · exact h
    · exact absurd ((dist2_eq_zero_iff _ _).mp h.symm) hcent
  rw [hwt]
  exact mul_pos (hsqrt _ hd) (hexp _)

/-- C3 counterexample: the graph on `wNet` contains the edge `0 -> 1`
although patch 1 is **not** a land patch (its height equals the sea level
instead of exceeding it), refuting "edge exactly when both patches are
land". -/
theorem patch_network_counterexample :
    (0, 1, 1) ∈ networkEdges id (fun _ => (1 : ℚ)) wNet
    ∧ (1 : ℕ) ∉ (land_patches wNet).1 := by
  have hedges : networkEdges id (fun _ => (1 : ℚ)) wNet = [(0, 1, 1)] := by
    norm_num [networkEdges, land_patches, freezeHeights, patchHeightVal, getPatch, dist2,
      wNet, List.find?, List.filterMap_cons]
  have hland : (land_patches wNet).1 = [0] := by
    norm_num [land_patches, freezeHeights, patchHeightVal, wNet]
  constructor
  · rw [hedges]
    exact List.mem_singleton.mpr rfl
  · rw [hland]
    simp

/-- C3 witness: the amended characterization instantiated on `wNet`
produces the concrete edge, and its weight is positive. -/
theorem patch_network_spec_witness :
    (0, 1, 1) ∈ networkEdges id (fun _ => (1 : ℚ)) wNet ∧ (0 : ℚ) < 1 := by
  have h := patch_network_spec id (fun _ => (1 : ℚ)) wNet 0 1 1
  have hland : (land_patches wNet).1 = [0] := by
    norm_num [land_patches, freezeHeights, patchHeightVal, wNet]
  have hg0 : getPatch (land_patches wNet).2 0 = some ⟨0, [], [(5, 1)], (2, 0), some 1⟩ := by
    norm_num [getPatch, land_patches, freezeHeights, patchHeightVal, wNet, List.find?]
  have hg1 : getPatch (land_patches wNet).2 1 = some ⟨1, [], [(5, 0)], (3, 0), some (1/2)⟩ := by
    norm_num [getPatch, land_patches, freezeHeights, patchHeightVal, wNet, List.find?]
  have hsea : (land_patches wNet).2.sea_level = 1/2 := by
    norm_num [land_patches, freezeHeights, wNet]
  constructor
  · apply h.1.mpr
    refine ⟨⟨0, [], [(5, 1)], (2, 0), some 1⟩, ⟨1, [], [(5, 0)], (3, 0), some (1/2)⟩, 5,
      ?_, hg0, ?_, hg1, ?_, ?_⟩
    · rw [hland]
      exact List.mem_singleton.mpr rfl
    · simp
    · rw [hsea]
      norm_num [patchHeightVal]
    · norm_num [patchHeightVal, dist2]
  · norm_num

lemma foldl_pres {σ α β : Type} (proj : σ → β) (step : σ → α → σ)
    (h : ∀ s a, proj (step s a) = proj s) :
    ∀ (l : List α) (s : σ), proj (l.foldl step s) = proj s := by
  intro l
  induction l with
  | nil => intro s; rfl
  | cons a as ih => intro s; rw [List.foldl_cons, ih, h]

lemma getVertexL_map_namePres (g : Vertex → Vertex) (hg : ∀ v, (g v).name = v.name) :
    ∀ (vs : List Vertex) (n : ℕ),
      getVertexL (vs.map g) n = (getVertexL vs n).map g := by
  intro vs
  induction vs with
  | nil => intro n; rfl
  | cons a l ih =>
    intro n
    unfold getVertexL at ih ⊢
    rw [List.map_cons]
    by_cases h : a.name = n
    · rw [List.find?_cons_of_pos _ (by simp [hg, h]), List.find?_cons_of_pos _ (by simp [h])]
      rfl
    · rw [List.find?_cons_of_neg _ (by simp [hg, h]), List.find?_cons_of_neg _ (by simp [h])]
      exact ih n

lemma getVertexL_map_proj {β : Type} (proj : Vertex → ℕ × β) (hn : ∀ v, (proj v).1 = v.name) :
    ∀ {vs vs' : List Vertex}, vs'.map proj = vs.map proj →
      ∀ n, (getVertexL vs' n).map proj = (getVertexL vs n).map proj := by
  intro vs
  induction vs with
  | nil =>
    intro vs' h n
    cases vs' with
    | nil => rfl
    | cons a l => simp at h
  | cons a l ih =>
    intro vs' h n
    cases vs' with
    | nil => simp at h
    | cons a' l' =>
      rw [List.map_cons, List.map_cons] at h
      injection h with h1 h2
      have hname : a'.name = a.name := by
        rw [← hn a', ← hn a, h1]
      unfold getVertexL
      by_cases hh : a.name = n
      · rw [List.find?_cons_of_pos _ (by simp [hname, hh]), List.find?_cons_of_pos _ (by simp [hh])]
        simpa using h1
      · rw [List.find?_cons_of_neg _ (by simp [hname, hh]), List.find?_cons_of_neg _ (by simp [hh])]
        exact ih h2 n

lemma lookup_cons_self (k v : ℕ) (l : List (ℕ × ℕ)) :
    List.lookup k ((k, v) :: l) = some v := by
  simp [List.lookup]

lemma lookup_cons_ne {k k' : ℕ} (h : k ≠ k') (v : ℕ) (l : List (ℕ × ℕ)) :
    List.lookup k ((k', v) :: l) = List.lookup k l := by
  simp [List.lookup, beq_eq_false_iff_ne.mpr h]

lemma lookup_mem : ∀ {l : List (ℕ × ℕ)} {k v : ℕ}, List.lookup k l = some v → (k, v) ∈ l := by
  intro l
  induction l with
  | nil => intro k v h; simp [List.lookup] at h
  | cons e es ih =>
    intro k v h
    by_cases hk : k = e.1
    · rw [← Prod.mk.eta (p := e), ← hk, lookup_cons_self] at h
      injection h with h
      have he : (k, v) = e := by rw [hk, ← h, Prod.mk.eta]
      rw [he]
      exact List.mem_cons_self _ _
    · rw [← Prod.mk.eta (p := e), lookup_cons_ne hk] at h
      exact List.mem_cons_of_mem _ (ih h)

lemma linkedAt_of_struct {vs vs' : List Vertex}
    (hv : vs'.map vStruct = vs.map vStruct) {k j i : ℕ} :
    linkedAt vs k j i → linkedAt vs' k j i := by
  rintro ⟨a, ha, hn, hr⟩
  have h := getVertexL_map_proj vStruct (fun v => rfl) hv k
  rw [ha] at h
  cases ha' : getVertexL vs' k with
  | none => rw [ha'] at h; simp at h
  | some a' =>
    rw [ha'] at h
    have h2 : vStruct a' = vStruct a := by simpa using h
    have h1 : a'.name = a.name ∧ a'.neighbors = a.neighbors ∧ a'.ridges = a.ridges := by
      unfold vStruct at h2
      exact ⟨congrArg (fun x => x.1) h2, congrArg (fun x => x.2.1) h2,
        congrArg (fun x => x.2.2) h2⟩
    exact ⟨a', ha', h1.2.1 ▸ hn, h1.2.2 ▸ hr⟩

lemma MeshSymmL_of_struct {vs vs' : List Vertex} {rs rs' : List Ridge}
    (hv : vs'.map vStruct = vs.map vStruct) (hr : rs'.map rStruct = rs.map rStruct) :
    MeshSymmL vs rs → MeshSymmL vs' rs' := by
  intro hsym r' hr'
  have hmem : rStruct r' ∈ rs.map rStruct := by
    rw [← hr]
    exact List.mem_map_of_mem _ hr'
  rw [List.mem_map] at hmem
  obtain ⟨r, hrmem, hrs⟩ := hmem
  have h1 : r.name = r'.name ∧ r.end_1 = r'.end_1 ∧ r.end_2 = r'.end_2 := by
    unfold rStruct at hrs
    exact ⟨congrArg (fun x => x.1) hrs, congrArg (fun x => x.2.1) hrs,
      congrArg (fun x => x.2.2) hrs⟩
  obtain ⟨hl1, hl2⟩ := hsym r hrmem
  rw [h1.1, h1.2.1, h1.2.2] at hl1 hl2
  exact ⟨linkedAt_of_struct hv hl1, linkedAt_of_struct hv hl2⟩

/-! ### Claim C9: which regions become patches -/
lemma getVertexL_cons_pos {a : Vertex} {n : ℕ} (h : a.name = n) (l : List Vertex) :
    getVertexL (a :: l) n = some a := by
  unfold getVertexL
  exact List.find?_cons_of_pos _ (by simp [h])

lemma getVertexL_cons_neg {a : Vertex} {n : ℕ} (h : ¬ a.name = n) (l : List Vertex) :
    getVertexL (a :: l) n = getVertexL l n := by
  unfold getVertexL
  exact List.find?_cons_of_neg _ (by simp [h])

lemma getVertexL_enumFrom : ∀ (l : List (ℚ × ℚ)) (k n : ℕ), k ≤ n → n < k + l.length →
    getVertexL ((List.enumFrom k l).map (fun ip => ⟨ip.1, ip.2, 0, 1, [], [], []⟩)) n
      = some ⟨n, l.getD (n - k) (0, 0), 0, 1, [], [], []⟩ := by
  intro l
  induction l with
  | nil => intro k n h1 h2; simp at h2; omega
  | cons x xs ih =>
    intro k n h1 h2
    rw [List.enumFrom, List.map_cons]
    dsimp only
    by_cases hk : k = n
    · have hh : (⟨k, x, 0, 1, [], [], []⟩ : Vertex).name = n := hk
      rw [getVertexL_cons_pos hh]
      subst hk
      simp
    · have hh : ¬ (⟨k, x, 0, 1, [], [], []⟩ : Vertex).name = n := hk
      rw [getVertexL_cons_neg hh]
      rw [ih (k + 1) n (by omega) (by simp at h2 ⊢; omega)]
      have hnk : n - k = (n - (k + 1)) + 1 := by omega
      rw [hnk, List.getD_cons_succ]

lemma getVertexL_make_vertices (d : VoronoiData) (n : ℕ) (hn : n < d.vertices.length) :
    getVertexL (make_vertices d) n = some ⟨n, d.vertices.getD n (0, 0), 0, 1, [], [], []⟩ := by
  unfold make_vertices
  have h := getVertexL_enumFrom d.vertices 0 n (Nat.zero_le n) (by omega)
  simpa [List.enum] using h

lemma makeRidgeStep_vNC (st : List Vertex × List Ridge) (i : ℕ) (p : ℤ × ℤ) :
    (makeRidgeStep st i p).1.map vNC = st.1.map vNC := by
  unfold makeRidgeStep
  split
  · rfl
  · dsimp only
    rw [List.map_map, List.map_map]
    apply List.map_congr_left
    intro v _
    simp only [Function.comp]
    split_ifs <;> rfl

lemma make_ridges_vNC (d : VoronoiData) (vs : List Vertex) :
    (make_ridges d vs).1.map vNC = vs.map vNC := by
  unfold make_ridges
  exact foldl_pres (fun st => st.1.map vNC) _
    (fun (s : List Vertex × List Ridge) (a : ℕ × (ℤ × ℤ)) => makeRidgeStep_vNC s a.1 a.2) _ _

lemma filterMap_coords_of_vNC {vs vs' : List Vertex} (h : vs'.map vNC = vs.map vNC) :
    ∀ names : List ℕ, (names.filterMap (getVertexL vs')).map (fun v => v.coords)
      = (names.filterMap (getVertexL vs)).map (fun v => v.coords) := by
  intro names
  induction names with
  | nil => rfl
  | cons n ns ih =>
    rw [List.filterMap_cons, List.filterMap_cons]
    have hv := getVertexL_map_proj vNC (fun v => rfl) h n
    cases h1 : getVertexL vs' n with
    | none =>
      cases h2 : getVertexL vs n with
      | none => exact ih
      | some a => rw [h1, h2] at hv; simp at hv
    | some a' =>
      cases h2 : getVertexL vs n with
      | none => rw [h1, h2] at hv; simp at hv
      | some a =>
        rw [h1, h2] at hv
        have hvnc : vNC a' = vNC a := by simpa using hv
        have hc : a'.coords = a.coords := congrArg (fun x => x.2) hvnc
        rw [List.map_cons, List.map_cons, hc, ih]

lemma makePatchStep_vNC (st : List Vertex × List Patch) (i : ℕ) (reg : List ℤ) :
    (makePatchStep st i reg).1.map vNC = st.1.map vNC := by
  unfold makePatchStep
  split
  · rfl
  · dsimp only
    rw [List.map_map]
    apply List.map_congr_left
    intro v _
    simp only [Function.comp]
    split_ifs <;> rfl

lemma make_patches_fold (d : VoronoiData) :
    ∀ (l : List (ℕ × List ℤ)) (vs : List Vertex) (ps : List Patch),
      vs.map vNC = (make_vertices d).map vNC →
      (l.foldl (fun st ip => makePatchStep st ip.1 ip.2) (vs, ps)).2
        = ps ++ l.filterMap (fun ip =>
            if (-1 : ℤ) ∈ ip.2 ∨ ip.2 = [] then none else some (buildPatch d ip)) := by
  intro l
  induction l with
  | nil => intro vs ps h; simp
  | cons ip l ih =>
    intro vs ps h
    rw [List.foldl_cons, List.filterMap_cons]
    by_cases hc : (-1 : ℤ) ∈ ip.2 ∨ ip.2 = []
    · rw [if_pos hc]
      have hstep : makePatchStep (vs, ps) ip.1 ip.2 = (vs, ps) := by
        unfold makePatchStep
        rw [if_pos hc]
      rw [hstep, ih vs ps h]
    · rw [if_neg hc]
      have hstep : makePatchStep (vs, ps) ip.1 ip.2
          = (vs.map (fun v => if v.name ∈ ip.2.map Int.toNat
              then { v with patches := ip.1 :: v.patches } else v),
             ps ++ [buildPatch d ip]) := by
        unfold makePatchStep
        rw [if_neg hc]
        dsimp only
        unfold buildPatch
        rw [filterMap_coords_of_vNC h]
      have hpres : (vs.map (fun v => if v.name ∈ ip.2.map Int.toNat
          then { v with patches := ip.1 :: v.patches } else v)).map vNC
          = (make_vertices d).map vNC := by
        rw [List.map_map, ← h]
        apply List.map_congr_left
        intro v _
        simp only [Function.comp]
        split_ifs <;> rfl
      rw [hstep, ih _ (ps ++ [buildPatch d ip]) hpres,
        List.append_assoc, List.singleton_append]

lemma makeNeighborStep_pStruct (vs : List Vertex) (st : List Patch × List Ridge) (r : Ridge) :
    ((makeNeighborStep vs st r).1).map pStruct = st.1.map pStruct := by
  unfold makeNeighborStep
  cases getVertexL vs r.end_1 with
  | none => rfl
  | some a =>
    cases getVertexL vs r.end_2 with
    | none => rfl
    | some b =>
      dsimp only
      split
      · dsimp only
        rw [List.map_map]
        apply List.map_congr_left
        intro p _
        simp only [Function.comp]
        split_ifs <;> rfl
      · rfl

lemma make_neighbors_pStruct (vs : List Vertex) (rs : List Ridge) (ps : List Patch) :
    ((make_neighbors vs rs ps).1).map pStruct = ps.map pStruct := by
  unfold make_neighbors
  exact foldl_pres (fun st => st.1.map pStruct) _ (fun s a => makeNeighborStep_pStruct vs s a) _ _

lemma mem_enumFrom_snd {α : Type} : ∀ {l : List α} {k : ℕ} {ip : ℕ × α},
    ip ∈ List.enumFrom k l → ip.2 ∈ l := by
  intro l
  induction l with
  | nil => intro k ip h; simp [List.enumFrom] at h
  | cons x xs ih =>
    intro k ip h
    rw [List.enumFrom] at h
    rcases List.mem_cons.mp h with rfl | h
    · exact List.mem_cons_self _ _
    · exact List.mem_cons_of_mem _ (ih h)

lemma filterMap_coords_valid (d : VoronoiData) :
    ∀ (names : List ℕ), (∀ n ∈ names, n < d.vertices.length) →
      ((names.filterMap (getVertexL (make_vertices d))).map (fun v => v.coords))
        = names.map (fun n => d.vertices.getD n (0, 0)) := by
  intro names
  induction names with
  | nil => intro h; rfl
  | cons n ns ih =>
    intro h
    rw [List.filterMap_cons, getVertexL_make_vertices d n (h n (List.mem_cons_self _ _))]
    rw [List.map_cons, List.map_cons]
    dsimp only
    rw [ih (fun m hm => h m (List.mem_cons_of_mem _ hm))]

lemma make_world_patches_pStruct (d : VoronoiData) (xl yl : ℚ × ℚ) :
    (make_world d xl yl).patches.map pStruct
      = (d.regions.enum.filterMap (fun ip =>
          if (-1 : ℤ) ∈ ip.2 ∨ ip.2 = [] then none else some (buildPatch d ip))).map pStruct := by
  unfold make_world
  dsimp only
  rw [make_neighbors_pStruct]
  unfold make_patches
  rw [make_patches_fold d _ _ [] (make_ridges_vNC d (make_vertices d))]
  rw [List.nil_append]

/-- C9 (amended): the constructor does **not** fail fast on a bounded
region with fewer than 3 vertices — `_make_patches` skips only regions
that are empty or contain the unbounded sentinel, and materializes every
other region, including 1- or 2-vertex ones, as a Patch.  A triple
`(name, bounding vertices, centroid)` occurs among the built patches
exactly when it comes from a nonempty sentinel-free enumerated region,
with the vertex names the region's indices and the centroid
`find_centroid` of their coordinates; consequently every materialized
patch has at least one (not three) bounding vertex and its centroid is
the coordinate-wise mean of its bounding vertices' coordinates. -/
theorem make_patches_spec (d : VoronoiData) (xl yl : ℚ × ℚ)
    (hidx : ∀ reg ∈ d.regions, ∀ z ∈ reg, z ≠ -1 → 0 ≤ z ∧ z.toNat < d.vertices.length) :
    (∀ (nm : ℕ) (vnames : List ℕ) (c : ℚ × ℚ),
      ((nm, vnames, c) ∈ (make_world d xl yl).patches.map (fun p => (p.name, p.vertices, p.centroid))
        ↔ ∃ ireg ∈ d.regions.enum, ¬ ((-1 : ℤ) ∈ ireg.2) ∧ ireg.2 ≠ []
            ∧ nm = ireg.1 ∧ vnames = ireg.2.map Int.toNat
            ∧ c = find_centroid (vnames.map (fun n => d.vertices.getD n ((0 : ℚ), (0 : ℚ))))))
    ∧ (∀ p ∈ (make_world d xl yl).patches, p.vertices ≠ []
        ∧ p.centroid
          = ((p.vertices.map (fun n => (d.vertices.getD n ((0 : ℚ), (0 : ℚ))).1)).sum
                / p.vertices.length,
             (p.vertices.map (fun n => (d.vertices.getD n ((0 : ℚ), (0 : ℚ))).2)).sum
                / p.vertices.length)) := by
  have hproj : (make_world d xl yl).patches.map (fun p => (p.name, p.vertices, p.centroid))
      = (d.regions.enum.filterMap (fun ip =>
          if (-1 : ℤ) ∈ ip.2 ∨ ip.2 = [] then none else some (buildPatch d ip))).map
          (fun p => (p.name, p.vertices, p.centroid)) := by
    have h := make_world_patches_pStruct d xl yl
    have h2 := congrArg (List.map (fun q : ℕ × List ℕ × (ℚ × ℚ) × Option ℚ => (q.1, q.2.1, q.2.2.1))) h
    rw [List.map_map, List.map_map] at h2
    exact h2
  have hbuild : ∀ ip ∈ d.regions.enum, ¬ ((-1 : ℤ) ∈ ip.2 ∨ ip.2 = []) →
      ((ip.2.map Int.toNat).filterMap (getVertexL (make_vertices d))).map (fun v => v.coords)
        = (ip.2.map Int.toNat).map (fun n => d.vertices.getD n ((0 : ℚ), (0 : ℚ))) := by
    intro ip hip hc
    apply filterMap_coords_valid
    intro n hn
    rw [List.mem_map] at hn
    obtain ⟨z, hz, rfl⟩ := hn
    have hzm : z ≠ -1 := fun he => hc (Or.inl (he ▸ hz))
    exact (hidx ip.2 (mem_enumFrom_snd hip) z hz hzm).2
  constructor
  · intro nm vnames c
    rw [hproj]
    rw [List.mem_map]
    constructor
    · rintro ⟨p, hp, hpq⟩
      rw [List.mem_filterMap] at hp
      obtain ⟨ip, hip, hsome⟩ := hp
      by_cases hc : (-1 : ℤ) ∈ ip.2 ∨ ip.2 = []
      · rw [if_pos hc] at hsome; simp at hsome
      · rw [if_neg hc] at hsome
        injection hsome with hsome
        subst hsome
        rw [Prod.ext_iff] at hpq
        obtain ⟨h1, hpq⟩ := hpq
        rw [Prod.ext_iff] at hpq
        obtain ⟨h2, h3⟩ := hpq
        dsimp only [buildPatch] at h1 h2 h3
        refine ⟨ip, hip, fun hm => hc (Or.inl hm), fun he => hc (Or.inr he),
          h1.symm, h2.symm, ?_⟩
        rw [← h3]
        try dsimp only [buildPatch]
        rw [hbuild ip hip hc, h2]
    · rintro ⟨ip, hip, hm, he, h1, h2, h3⟩
      have hc : ¬ ((-1 : ℤ) ∈ ip.2 ∨ ip.2 = []) := by
        rintro (h | h)
        · exact hm h
        · exact he h
      refine ⟨buildPatch d ip, ?_, ?_⟩
      · rw [List.mem_filterMap]
        exact ⟨ip, hip, by rw [if_neg hc]⟩
      · rw [Prod.ext_iff]
        refine ⟨h1.symm, ?_⟩
        rw [Prod.ext_iff]
        refine ⟨h2.symm, ?_⟩
        dsimp only [buildPatch]
        rw [hbuild ip hip hc, ← h2]
        exact h3.symm
  · intro p hp
    have hmem : (p.name, p.vertices, p.centroid)
        ∈ (make_world d xl yl).patches.map (fun p => (p.name, p.vertices, p.centroid)) :=
      List.mem_map_of_mem _ hp
    rw [hproj, List.mem_map] at hmem
    obtain ⟨p2, hp2, hpq⟩ := hmem
    rw [List.mem_filterMap] at hp2
    obtain ⟨ip, hip, hsome⟩ := hp2
    by_cases hc : (-1 : ℤ) ∈ ip.2 ∨ ip.2 = []
    · rw [if_pos hc] at hsome; simp at hsome
    · rw [if_neg hc] at hsome
      injection hsome with hsome
      subst hsome
      rw [Prod.ext_iff] at hpq
      obtain ⟨h1, hpq⟩ := hpq
      rw [Prod.ext_iff] at hpq
      obtain ⟨h2, h3⟩ := hpq
      dsimp only [buildPatch] at h1 h2 h3
      have hreg : ip.2 ≠ [] := fun he => hc (Or.inr he)
      constructor
      · rw [← h2]
        intro hcon
        exact hreg (List.map_eq_nil_iff.mp hcon)
      · rw [← h3, hbuild ip hip hc, h2]
        unfold find_centroid
        rw [List.map_map, List.map_map, List.length_map]
        rfl

/-- C9 counterexample: constructing from `dC9` does not fail — it returns
a mesh whose single Patch has only 2 bounding vertices, refuting both the
fail-fast behavior and the every-patch-has-at-least-3-vertices invariant. -/
theorem make_patches_counterexample :
    (make_world dC9 (0, 1) (0, 1)).patches.map (fun p => (p.name, p.vertices)) = [(0, [0, 1])] := by
  decide

/-- C9 witness: on `dTri` the characterization identifies the one patch,
with the region's vertex indices and the mean of their coordinates as
centroid. -/
theorem make_patches_spec_witness :
    (0, [0, 1, 2], find_centroid [((1 : ℚ), (0 : ℚ)), (3, 0), (1, 2)])
      ∈ (make_world dTri (0, 1) (0, 1)).patches.map (fun p => (p.name, p.vertices, p.centroid)) := by
  apply ((make_patches_spec dTri (0, 1) (0, 1) (by decide)).1 _ _ _).mpr
  refine ⟨(0, [0, 1, 2]), ?_, by decide, by decide, rfl, by decide, ?_⟩
  · simp [dTri, List.enum, List.enumFrom]
  · norm_num [dTri, find_centroid]

lemma unordEq_comm {a b c d : ℕ} : unordEq a b c d ↔ unordEq c d a b := by
  unfold unordEq; tauto

lemma unordEq_swap {a b c d : ℕ} : unordEq a b c d ↔ unordEq b a c d := by
  unfold unordEq; tauto

lemma make_vertices_names (d : VoronoiData) :
    (make_vertices d).map (fun v => v.name) = List.range d.vertices.length := by
  unfold make_vertices
  rw [List.map_map]
  rw [show ((fun v : Vertex => v.name)
    ∘ (fun ip : ℕ × (ℚ × ℚ) => (⟨ip.1, ip.2, 0, 1, [], [], []⟩ : Vertex))) = Prod.fst from rfl]
  exact List.enum_map_fst _

lemma mem_of_getVertexL {vs : List Vertex} {n : ℕ} {a : Vertex}
    (h : getVertexL vs n = some a) : a ∈ vs ∧ a.name = n := by
  unfold getVertexL at h
  refine ⟨List.mem_of_find?_eq_some h, ?_⟩
  have := List.find?_some h
  simpa using this

lemma getVertexL_of_names {vs : List Vertex} {N : ℕ}
    (hA : vs.map (fun v => v.name) = List.range N) {n : ℕ} (hn : n < N) :
    ∃ a, getVertexL vs n = some a ∧ a.name = n := by
  have hmem : n ∈ vs.map (fun v => v.name) := by
    rw [hA]
    exact List.mem_range.mpr hn
  rw [List.mem_map] at hmem
  obtain ⟨v, hv, hvn⟩ := hmem
  cases hfind : getVertexL vs n with
  | none =>
    unfold getVertexL at hfind
    rw [List.find?_eq_none] at hfind
    exact absurd (by simp [hvn]) (hfind v hv)
  | some a =>
    exact ⟨a, rfl, (mem_of_getVertexL hfind).2⟩

lemma makeRidgeStep_eq (st : List Vertex × List Ridge) (i : ℕ) {p : ℤ × ℤ}
    (hok : okPair p) :
    makeRidgeStep st i p =
      ((st.1.map (fun v => if v.name = p.1.toNat then add_neighbor v p.2.toNat i else v)).map
         (fun v => if v.name = p.2.toNat then add_neighbor v p.1.toNat i else v),
       st.2 ++ [⟨i, p.1.toNat, p.2.toNat, 0, []⟩]) := by
  unfold makeRidgeStep
  rw [if_neg (by rintro (h | h) <;> [exact hok.1 h; exact hok.2 h])]

lemma makeRidgeStep_skip (st : List Vertex × List Ridge) (i : ℕ) {p : ℤ × ℤ}
    (hok : ¬ okPair p) : makeRidgeStep st i p = st := by
  unfold makeRidgeStep
  rw [if_pos ?_]
  by_contra hc
  push_neg at hc
  exact hok ⟨hc.1, hc.2⟩

lemma make_ridges_symm (d : VoronoiData) :
    ∀ (l : List (ℕ × (ℤ × ℤ))) (vs : List Vertex) (rs : List Ridge),
      vs.map (fun v => v.name) = List.range d.vertices.length →
      (∀ ip ∈ l, okPair ip.2 →
        ip.2.1.toNat < d.vertices.length ∧ ip.2.2.toNat < d.vertices.length
          ∧ ip.2.1.toNat ≠ ip.2.2.toNat) →
      MeshSymmL vs rs →
      (∀ v ∈ vs, ∀ e ∈ v.ridges, ∃ r ∈ rs, r.name = e.2
        ∧ unordEq v.name e.1 r.end_1 r.end_2) →
      (∀ ip ∈ l, okPair ip.2 → ∀ r ∈ rs,
        ¬ unordEq ip.2.1.toNat ip.2.2.toNat r.end_1 r.end_2) →
      l.Pairwise (fun x y => okPair x.2 → okPair y.2 →
        ¬ unordEq x.2.1.toNat x.2.2.toNat y.2.1.toNat y.2.2.toNat) →
      MeshSymmL (l.foldl (fun st ip => makeRidgeStep st ip.1 ip.2) (vs, rs)).1
        (l.foldl (fun st ip => makeRidgeStep st ip.1 ip.2) (vs, rs)).2 := by
  intro l
  induction l with
  | nil =>
    intro vs rs _ _ hsym _ _ _
    exact hsym
  | cons ip l ih =>
    intro vs rs hA hvalid hsym hent hfresh hpair
    rw [List.foldl_cons]
    by_cases hok : okPair ip.2
    · have hval := hvalid ip (List.mem_cons_self _ _) hok
      obtain ⟨hk, hj, hkj⟩ := hval
      set k := ip.2.1.toNat with hkdef
      set j := ip.2.2.toNat with hjdef
      set g1 : Vertex → Vertex := fun v => if v.name = k then add_neighbor v j ip.1 else v
        with hg1
      set g2 : Vertex → Vertex := fun v => if v.name = j then add_neighbor v k ip.1 else v
        with hg2
      have hg1n : ∀ v, (g1 v).name = v.name := by
        intro v; rw [hg1]; dsimp only; split_ifs <;> rfl
      have hg2n : ∀ v, (g2 v).name = v.name := by
        intro v; rw [hg2]; dsimp only; split_ifs <;> rfl
      rw [makeRidgeStep_eq (vs, rs) ip.1 hok]
      dsimp only
      have hA2 : ((vs.map g1).map g2).map (fun v => v.name) = List.range d.vertices.length := by
        rw [List.map_map, List.map_map, ← hA]
        apply List.map_congr_left
        intro v _
        simp only [Function.comp]
        rw [hg2n, hg1n]
      have hlookup2 : ∀ n, getVertexL ((vs.map g1).map g2) n
          = ((getVertexL vs n).map g1).map g2 := by
        intro n
        rw [getVertexL_map_namePres g2 hg2n, getVertexL_map_namePres g1 hg1n]
      -- symmetry of the extended state
      have hsym2 : MeshSymmL ((vs.map g1).map g2) (rs ++ [⟨ip.1, k, j, 0, []⟩]) := by
        intro r hr
        rcases List.mem_append.mp hr with hold | hnew
        · -- old ridges stay linked
          obtain ⟨hl1, hl2⟩ := hsym r hold
          have hpres : ∀ k' j', linkedAt vs k' j' r.name →
              unordEq k' j' r.end_1 r.end_2 → linkedAt ((vs.map g1).map g2) k' j' r.name := by
            intro k' j' ⟨a', ha', hn', hr'⟩ hue
            have hfr := hfresh ip (List.mem_cons_self _ _) hok r hold
            have ha'n : a'.name = k' := (mem_of_getVertexL ha').2
            have ha'mem : a' ∈ vs := (mem_of_getVertexL ha').1
            refine ⟨g2 (g1 a'), by rw [hlookup2, ha']; rfl, ?_, ?_⟩
            · -- neighbor membership is only extended
              rw [hg2, hg1]
              dsimp only
              by_cases h1 : a'.name = k
              · rw [if_pos h1]
                rw [if_neg (show ¬ (add_neighbor a' j ip.1).name = j from
                  fun hcon => hkj (h1.symm.trans hcon))]
                unfold add_neighbor
                dsimp only
                exact List.mem_cons_of_mem _ hn'
              · rw [if_neg h1]
                by_cases h2 : a'.name = j
                · rw [if_pos h2]
                  unfold add_neighbor
                  dsimp only
                  exact List.mem_cons_of_mem _ hn'
                · rw [if_neg h2]
                  exact hn'
            · -- the ridge map entry for j' is not shadowed
              have hj'k : j' ≠ j ∨ a'.name ≠ k := by
                by_contra hcon
                push_neg at hcon
                obtain ⟨he1, he2⟩ := hcon
                have hmem := lookup_mem (he1 ▸ hr')
                obtain ⟨r2, hr2, hr2n, hue2⟩ := hent a' ha'mem (j, r.name) hmem
                rw [he2] at hue2
                exact hfresh ip (List.mem_cons_self _ _) hok r2 hr2 hue2
              have hj'j : j' ≠ k ∨ a'.name ≠ j := by
                by_contra hcon
                push_neg at hcon
                obtain ⟨he1, he2⟩ := hcon
                have hmem := lookup_mem (he1 ▸ hr')
                obtain ⟨r2, hr2, hr2n, hue2⟩ := hent a' ha'mem (k, r.name) hmem
                rw [he2] at hue2
                have hue3 : unordEq k j r2.end_1 r2.end_2 := unordEq_swap.mp hue2
                exact hfresh ip (List.mem_cons_self _ _) hok r2 hr2 hue3
              rw [hg2, hg1]
              dsimp only
              by_cases h1 : a'.name = k
              · rw [if_pos h1]
                have hank : (add_neighbor a' j ip.1).name = a'.name := rfl
                rw [if_neg (by rw [hank, h1]; exact hkj)]
                have hjj : j' ≠ j := by
                  rcases hj'k with h | h
                  · exact h
                  · exact absurd h1 h
                unfold add_neighbor
                dsimp only
                rw [lookup_cons_ne hjj]
                exact hr'
              · rw [if_neg h1]
                by_cases h2 : a'.name = j
                · rw [if_pos h2]
                  have hjk : j' ≠ k := by
                    rcases hj'j with h | h
                    · exact h
                    · exact absurd h2 h
                  unfold add_neighbor
                  dsimp only
                  rw [lookup_cons_ne hjk]
                  exact hr'
                · rw [if_neg h2]
                  exact hr'
          refine ⟨?_, ?_⟩
          · have hue : unordEq r.end_1 r.end_2 r.end_1 r.end_2 := Or.inl ⟨rfl, rfl⟩
            exact hpres _ _ hl1 hue
          · have hue : unordEq r.end_2 r.end_1 r.end_1 r.end_2 := Or.inr ⟨rfl, rfl⟩
            exact hpres _ _ hl2 hue
        · -- the freshly added ridge is linked both ways
          rw [List.mem_singleton.mp hnew]
          dsimp only
          obtain ⟨a, ha, han⟩ := getVertexL_of_names hA hk
          obtain ⟨b, hb, hbn⟩ := getVertexL_of_names hA hj
          constructor
          · refine ⟨add_neighbor a j ip.1, ?_, ?_, ?_⟩
            · have hval : g2 (g1 a) = add_neighbor a j ip.1 := by
                rw [hg1]
                dsimp only
                rw [if_pos han]
                rw [hg2]
                dsimp only
                rw [if_neg (show ¬ (add_neighbor a j ip.1).name = j from
                  fun hcon => hkj (han.symm.trans hcon))]
              rw [hlookup2, ha]
              simp only [Option.map_some']
              rw [hval]
            · unfold add_neighbor
              exact List.mem_cons_self _ _
            · unfold add_neighbor
              exact lookup_cons_self _ _ _
          · refine ⟨add_neighbor b k ip.1, ?_, ?_, ?_⟩
            · have hval : g2 (g1 b) = add_neighbor b k ip.1 := by
                rw [hg1]
                dsimp only
                rw [if_neg (show ¬ b.name = k from
                  fun hcon => hkj (hcon.symm.trans hbn))]
                rw [hg2]
                dsimp only
                rw [if_pos hbn]
              rw [hlookup2, hb]
              simp only [Option.map_some']
              rw [hval]
            · unfold add_neighbor
              exact List.mem_cons_self _ _
            · unfold add_neighbor
              exact lookup_cons_self _ _ _
      -- the entry invariant for the extended state
      have hent2 : ∀ v ∈ (vs.map g1).map g2, ∀ e ∈ v.ridges,
          ∃ r ∈ rs ++ [⟨ip.1, k, j, 0, []⟩], r.name = e.2
            ∧ unordEq v.name e.1 r.end_1 r.end_2 := by
        intro v2 hv2 e he
        rw [List.map_map, List.mem_map] at hv2
        obtain ⟨v, hv, rfl⟩ := hv2
        simp only [Function.comp] at he ⊢
        have hvn2 : (g2 (g1 v)).name = v.name := by rw [hg2n, hg1n]
        rw [hvn2]
        rw [hg2, hg1] at he
        dsimp only at he
        by_cases h1 : v.name = k
        · rw [if_pos h1] at he
          rw [if_neg (show ¬ (add_neighbor v j ip.1).name = j from
            fun hcon => hkj (h1.symm.trans hcon))] at he
          unfold add_neighbor at he
          dsimp only at he
          rcases List.mem_cons.mp he with rfl | he
          · exact ⟨⟨ip.1, k, j, 0, []⟩, List.mem_append_right _ (List.mem_singleton.mpr rfl),
              rfl, Or.inl ⟨h1, rfl⟩⟩
          · obtain ⟨r, hr, hrn, hue⟩ := hent v hv e he
            exact ⟨r, List.mem_append_left _ hr, hrn, hue⟩
        · rw [if_neg h1] at he
          by_cases h2 : v.name = j
          · rw [if_pos h2] at he
            unfold add_neighbor at he
            dsimp only at he
            rcases List.mem_cons.mp he with rfl | he
            · exact ⟨⟨ip.1, k, j, 0, []⟩, List.mem_append_right _ (List.mem_singleton.mpr rfl),
                rfl, Or.inr ⟨h2, rfl⟩⟩
            · obtain ⟨r, hr, hrn, hue⟩ := hent v hv e he
              exact ⟨r, List.mem_append_left _ hr, hrn, hue⟩
          · rw [if_neg h2] at he
            obtain ⟨r, hr, hrn, hue⟩ := hent v hv e he
            exact ⟨r, List.mem_append_left _ hr, hrn, hue⟩
      -- freshness for the remaining input
      have hfresh2 : ∀ ip2 ∈ l, okPair ip2.2 → ∀ r ∈ rs ++ [⟨ip.1, k, j, 0, []⟩],
          ¬ unordEq ip2.2.1.toNat ip2.2.2.toNat r.end_1 r.end_2 := by
        intro ip2 hip2 hok2 r hr
        rcases List.mem_append.mp hr with hold | hnew
        · exact hfresh ip2 (List.mem_cons_of_mem _ hip2) hok2 r hold
        · rw [List.mem_singleton.mp hnew]
          dsimp only
          intro hue
          exact (List.pairwise_cons.mp hpair).1 ip2 hip2 hok hok2 (unordEq_comm.mp hue)
      exact ih _ _ hA2 (fun x hx => hvalid x (List.mem_cons_of_mem _ hx)) hsym2 hent2
        hfresh2 (List.pairwise_cons.mp hpair).2
    · rw [makeRidgeStep_skip (vs, rs) ip.1 hok]
      exact ih _ _ hA (fun x hx => hvalid x (List.mem_cons_of_mem _ hx)) hsym hent
        (fun x hx => hfresh x (List.mem_cons_of_mem _ hx))
        (List.pairwise_cons.mp hpair).2

lemma MeshSymm_of_structProj {w w2 : World} (h : structProj w2 = structProj w) :
    MeshSymm w → MeshSymm w2 :=
  MeshSymmL_of_struct (congrArg Prod.fst h) (congrArg Prod.snd h)

lemma structProj_updVertex (w : World) (n : ℕ) (f : Vertex → Vertex)
    (hf : ∀ v, vStruct (f v) = vStruct v) :
    structProj (updVertex w n f) = structProj w := by
  unfold structProj updVertex
  dsimp only
  rw [List.map_map]
  congr 1
  apply List.map_congr_left
  intro v _
  simp only [Function.comp]
  split_ifs with h
  · exact hf v
  · rfl

lemma structProj_bumpRidgeFlux (w : World) (rn : ℕ) (dq : ℚ) :
    structProj (bumpRidgeFlux w rn dq) = structProj w := by
  unfold structProj bumpRidgeFlux
  dsimp only
  rw [List.map_map]
  congr 1
  apply List.map_congr_left
  intro r _
  simp only [Function.comp]
  split_ifs <;> rfl

lemma structProj_set_heights (w : World) (h : ℚ) :
    structProj (set_heights w h) = structProj w := by
  unfold structProj set_heights
  dsimp only
  rw [List.map_map]
  rfl

lemma structProj_reset_rivers (w : World) :
    structProj (reset_rivers w) = structProj w := by
  unfold structProj reset_rivers
  dsimp only
  rw [List.map_map, List.map_map]
  rfl

lemma structProj_add_slope (w : World) (sl : ℚ × ℚ) :
    structProj (add_slope w sl) = structProj w := by
  unfold structProj add_slope
  dsimp only
  rw [List.map_map]
  congr 1
  apply List.map_congr_left
  intro v _
  simp only [Function.comp]
  split_ifs <;> rfl

lemma structProj_add_hill (expFn : ℚ → ℚ) (w : World) (hill : ℚ × ℚ) (rad : ℚ) :
    structProj (add_hill expFn w hill rad) = structProj w := by
  unfold structProj add_hill
  dsimp only
  rw [List.map_map]
  congr 1
  apply List.map_congr_left
  intro v _
  simp only [Function.comp]
  split_ifs <;> rfl

lemma structProj_set_sea_level (w : World) (v : ℚ) :
    structProj (set_sea_level w v) = structProj w := by
  unfold set_sea_level
  split <;> rfl

lemma structProj_land_patches (w : World) :
    structProj (land_patches w).2 = structProj w := by
  unfold land_patches
  split <;> rfl

lemma structProj_riverStep (s : World) (n : ℕ) : structProj (riverStep s n) = structProj s := by
  unfold riverStep
  cases h : getVertex s n with
  | none => rfl
  | some v =>
    try dsimp only
    by_cases hc : check_coord s v.coords
    · rw [if_pos hc]
      cases hlo : lowestNeighbor s v with
      | none => rfl
      | some lo =>
        try dsimp only
        by_cases hlt : lo.height < v.height
        · rw [if_pos hlt]
          try dsimp only
          cases hrn : v.ridges.lookup lo.name with
          | none => exact structProj_updVertex _ _ _ (fun u => rfl)
          | some rn =>
            exact (structProj_bumpRidgeFlux _ _ _).trans
              (structProj_updVertex _ _ _ (fun u => rfl))
        · rw [if_neg hlt]
    · rw [if_neg hc]

lemma structProj_make_rivers (w : World) : structProj (make_rivers w) = structProj w := by
  unfold make_rivers
  rw [foldl_pres structProj riverStep structProj_riverStep]
  exact structProj_reset_rivers w

lemma structProj_erodeStep {sqrtFn : ℚ → ℚ} {mt : ℚ} {s s2 : World} {r : Ridge}
    (h : erodeStep sqrtFn mt s r = some s2) : structProj s2 = structProj s := by
  unfold erodeStep at h
  by_cases hf : r.flux = 0
  · rw [if_pos hf] at h
    injection h with h
    rw [← h]
  · rw [if_neg hf] at h
    cases h1 : getVertex s r.end_1 with
    | none =>
      rw [h1] at h
      cases h2 : getVertex s r.end_2 <;> rw [h2] at h <;> simp at h
    | some a =>
      rw [h1] at h
      cases h2 : getVertex s r.end_2 with
      | none => rw [h2] at h; simp at h
      | some b =>
        rw [h2] at h
        dsimp only at h
        cases h3 : ridgeSlope sqrtFn a b with
        | none => rw [h3] at h; simp at h
        | some sl =>
          rw [h3] at h
          dsimp only at h
          injection h with h
          rw [← h]
          exact structProj_updVertex _ _ _ (fun u => rfl)

lemma structProj_erodePass {sqrtFn : ℚ → ℚ} {mt : ℚ} :
    ∀ {rs : List Ridge} {s s2 : World}, erodePass sqrtFn mt s rs = some s2 →
      structProj s2 = structProj s := by
  intro rs
  induction rs with
  | nil =>
    intro s s2 h
    simp only [erodePass, Option.some.injEq] at h
    rw [← h]
  | cons r rs ih =>
    intro s s2 h
    simp only [erodePass, Option.bind_eq_some] at h
    obtain ⟨s1, h1, h2⟩ := h
    rw [ih h2, structProj_erodeStep h1]

lemma structProj_coastStep (eps : ℚ) (s : World) (n : ℕ) :
    structProj (coastStep eps s n) = structProj s := by
  unfold coastStep
  cases h : getVertex s n with
  | none => rfl
  | some v =>
    try dsimp only
    split
    · exact structProj_updVertex _ _ _ (fun u => rfl)
    · split
      · exact structProj_updVertex _ _ _ (fun u => rfl)
      · rfl

lemma structProj_clean_coastline (w : World) (eps : ℚ) :
    structProj (clean_coastline w eps) = structProj w := by
  unfold clean_coastline
  exact foldl_pres structProj (coastStep eps) (structProj_coastStep eps) _ _

lemma structProj_normalize {w w2 : World} (h : normalize_heights w = some w2) :
    structProj w2 = structProj w := by
  unfold normalize_heights at h
  cases hmn : listMin (w.vertices.map (fun v => v.height)) with
  | none =>
    rw [hmn] at h
    cases hmx : listMax (w.vertices.map (fun v => v.height)) <;> rw [hmx] at h <;> simp at h
  | some mn =>
    rw [hmn] at h
    cases hmx : listMax (w.vertices.map (fun v => v.height)) with
    | none => rw [hmx] at h; simp at h
    | some mx =>
      rw [hmx] at h
      dsimp only at h
      by_cases he : mx = mn
      · rw [if_pos he] at h; simp at h
      · rw [if_neg he] at h
        injection h with h
        rw [← h]
        unfold structProj
        dsimp only
        rw [List.map_map]
        rfl

lemma makePatchStep_vStruct (st : List Vertex × List Patch) (i : ℕ) (reg : List ℤ) :
    (makePatchStep st i reg).1.map vStruct = st.1.map vStruct := by
  unfold makePatchStep
  split
  · rfl
  · dsimp only
    rw [List.map_map]
    apply List.map_congr_left
    intro v _
    simp only [Function.comp]
    split_ifs <;> rfl

lemma makeNeighborStep_rStruct (vs : List Vertex) (st : List Patch × List Ridge) (r : Ridge) :
    ((makeNeighborStep vs st r).2).map rStruct = st.2.map rStruct := by
  unfold makeNeighborStep
  cases getVertexL vs r.end_1 with
  | none => rfl
  | some a =>
    cases getVertexL vs r.end_2 with
    | none => rfl
    | some b =>
      dsimp only
      split
      · dsimp only
        rw [List.map_map]
        apply List.map_congr_left
        intro r2 _
        simp only [Function.comp]
        split_ifs <;> rfl
      · rfl

lemma pairwise_enumFrom {α : Type} {R : α → α → Prop} :
    ∀ {l : List α} (k : ℕ), l.Pairwise R →
      (List.enumFrom k l).Pairwise (fun x y => R x.2 y.2) := by
  intro l
  induction l with
  | nil => intro k _; exact List.Pairwise.nil
  | cons x xs ih =>
    intro k h
    rw [List.enumFrom]
    obtain ⟨hhead, htail⟩ := List.pairwise_cons.mp h
    exact List.Pairwise.cons
      (fun y hy => hhead y.2 (mem_enumFrom_snd hy)) (ih (k + 1) htail)

/-- C8: after construction from a well-formed tessellation (endpoint
indices in range, distinct within each bounded ridge, and no two bounded
ridges joining the same unordered vertex pair), the mesh is symmetric:
every ridge is in both endpoints' neighbor sets and retrievable from both
neighbor-to-ridge maps; and every subsequent operation — height editing,
normalization, hydrology, sea level, coastline cleanup and the cached
land-patch query — preserves the symmetry. -/
theorem mesh_symmetry (d : VoronoiData) (xl yl : ℚ × ℚ)
    (hval : ∀ p ∈ d.ridge_vertices, okPair p →
      p.1.toNat < d.vertices.length ∧ p.2.toNat < d.vertices.length
        ∧ p.1.toNat ≠ p.2.toNat)
    (hdis : d.ridge_vertices.Pairwise (fun p q => okPair p → okPair q →
      ¬ unordEq p.1.toNat p.2.toNat q.1.toNat q.2.toNat)) :
    MeshSymm (make_world d xl yl)
    ∧ (∀ w h, MeshSymm w → MeshSymm (set_heights w h))
    ∧ (∀ w sl, MeshSymm w → MeshSymm (add_slope w sl))
    ∧ (∀ expFn w hill rad, MeshSymm w → MeshSymm (add_hill expFn w hill rad))
    ∧ (∀ w w2, normalize_heights w = some w2 → MeshSymm w → MeshSymm w2)
    ∧ (∀ w, MeshSymm w → MeshSymm (reset_rivers w))
    ∧ (∀ w, MeshSymm w → MeshSymm (make_rivers w))
    ∧ (∀ sqrtFn w mt dr w2, erode_heights sqrtFn w mt dr = some w2 →
        MeshSymm w → MeshSymm w2)
    ∧ (∀ w v, MeshSymm w → MeshSymm (set_sea_level w v))
    ∧ (∀ w e, MeshSymm w → MeshSymm (clean_coastline w e))
    ∧ (∀ w, MeshSymm w → MeshSymm (land_patches w).2) := by
  refine ⟨?_, fun w h => MeshSymm_of_structProj (structProj_set_heights w h),
    fun w sl => MeshSymm_of_structProj (structProj_add_slope w sl),
    fun expFn w hill rad => MeshSymm_of_structProj (structProj_add_hill expFn w hill rad),
    fun w w2 h => MeshSymm_of_structProj (structProj_normalize h),
    fun w => MeshSymm_of_structProj (structProj_reset_rivers w),
    fun w => MeshSymm_of_structProj (structProj_make_rivers w),
    fun sqrtFn w mt dr w2 h => MeshSymm_of_structProj (structProj_erodePass h),
    fun w v => MeshSymm_of_structProj (structProj_set_sea_level w v),
    fun w e => MeshSymm_of_structProj (structProj_clean_coastline w e),
    fun w => MeshSymm_of_structProj (structProj_land_patches w)⟩
  have hsymridges : MeshSymmL (make_ridges d (make_vertices d)).1
      (make_ridges d (make_vertices d)).2 := by
    unfold make_ridges
    apply make_ridges_symm d
    · exact make_vertices_names d
    · intro ip hip hok
      exact hval ip.2 (mem_enumFrom_snd hip) hok
    · intro r hr
      simp at hr
    · intro v hv e he
      unfold make_vertices at hv
      rw [List.mem_map] at hv
      obtain ⟨ipc, _, rfl⟩ := hv
      simp at he
    · intro ip hip hok r hr
      simp at hr
    · exact pairwise_enumFrom 0 hdis
  unfold MeshSymm make_world
  dsimp only
  apply MeshSymmL_of_struct
  · exact foldl_pres (fun st => st.1.map vStruct) _
      (fun (s : List Vertex × List Patch) (a : ℕ × List ℤ) => makePatchStep_vStruct s a.1 a.2) _ _
  · exact foldl_pres (fun st => st.2.map rStruct) _
      (fun (s : List Patch × List Ridge) (a : Ridge) => makeNeighborStep_rStruct _ s a) _ _
  · exact hsymridges

/-- C8 witness: the constructed mesh on `dSym` is symmetric. -/
theorem mesh_symmetry_witness : MeshSymm (make_world dSym (0, 1) (0, 1)) :=
  (mesh_symmetry dSym (0, 1) (0, 1) (by decide) (by decide)).1

end TerrainGen

